import Mathlib

/-!
# rtsp_redirect_resolver: a shallow embedding

The Go sources `source.go`, `printer.go` and `cmd/rtsp_redirect_resolver.go` are
translated function by function.

Modelling conventions.

* A Go `string` is a sequence of bytes, held as a Lean `String` with one character per
  byte (ASCII text is itself); `map[string]Source` is an association list with
  pairwise distinct keys (`AList`), `s[k] = v` being `AList.insert`.
* `for ... range m` over a map visits the entries in an unspecified order: the order is
  a parameter (`Runtime`), any rearrangement of the values.
* What the program reads from outside (the RTSP client, the HTTP client, the file
  system, the JSON and CSV decoders of the inputs) is a field of `Env`; every theorem
  quantifies over it. The JSON encoder of the output is modelled as `encoding/json`
  documents it: keys sorted, strings coerced to valid UTF-8.
* Goroutines joined by a `sync.WaitGroup` take their turn in the order the `Runtime`
  gives; where they write a shared map with no lock (the staging map of
  `ResolveSources`) the `Runtime` also says how the race ends. A closure started in a
  loop body sees the loop variable of its own iteration (Go 1.22 loop semantics).
* Locking is modelled separately, as the trace of lock and map events of each method.
* Log output (`log.Println`, `log.Print`) is not modelled.
-/

namespace RtspRedirectResolver

/-! ## source.go : data model -/

/-- The Go struct `Source` with fields `original` and `resolved`. -/
structure Source where
  original : String
  resolved : String
deriving DecidableEq, Repr

/-- `NewSource(original)`: `Source{original: original}`, the other field is the zero value. -/
def NewSource (original : String) : Source :=
  { original := original, resolved := "" }

/-- The Go type `SourceMap`, that is `map[string]Source`. -/
abbrev SourceMap := AList (fun _ : String => Source)

/-- The values of a map, in the order of the representation. -/
def SourceMap.values (s : SourceMap) : List Source :=
  s.entries.map (fun e => e.2)

/-- How the unsynchronised writes of the staging map of `ResolveSources` end when two
or more tasks write it. -/
inductive StagingRace where
  /-- No two writes overlap: every write takes effect. -/
  | apart
  /-- Two writes overlap and the Go runtime notices it: the process stops with
  `fatal error: concurrent map writes`. -/
  | fatal
  /-- Two writes overlap unnoticed and the write at this position is lost. -/
  | lost (i : Nat)
deriving DecidableEq, Repr

/-- The choices the Go runtime makes in one run: the order in which a `range` loop over
a map visits its values and in which goroutines that append to a shared slice get their
turn (any rearrangement), and how the writes of the staging map end, given the Sources
the tasks write. -/
structure Runtime where
  visit : {α : Type} → List α → List α
  visit_perm : ∀ {α : Type} (l : List α), (visit l).Perm l
  staging : List Source → StagingRace

/-- The order of the representation, no two staging writes overlapping. -/
def Runtime.asStored : Runtime :=
  ⟨fun l => l, fun l => List.Perm.refl l, fun _ => .apart⟩

/-- The reverse of the order of the representation, no two staging writes overlapping. -/
def Runtime.backwards : Runtime :=
  ⟨fun l => l.reverse, fun l => List.reverse_perm l, fun _ => .apart⟩

/-- The order of the representation, overlapping staging writes being noticed. -/
def Runtime.colliding : Runtime :=
  ⟨fun l => l, fun l => List.Perm.refl l, fun _ => .fatal⟩

/-- The order of the representation, the first of several staging writes being lost. -/
def Runtime.losing : Runtime :=
  ⟨fun l => l, fun l => List.Perm.refl l, fun _ => .lost 0⟩

/-- `func (s SourceMap) Add(source Source)`: `s[source.original] = source`. -/
def SourceMap.Add (s : SourceMap) (source : Source) : SourceMap :=
  AList.insert source.original source s

/-- `func (s SourceMap) Get(original string) (Source, bool)`: the comma-ok map read,
the zero `Source` and `false` for a missing key. -/
def SourceMap.Get (s : SourceMap) (original : String) : Source × Bool :=
  match s.lookup original with
  | some source => (source, true)
  | none => ({ original := "", resolved := "" }, false)

/-- `func (s SourceMap) Iterate(handler func(source Source))`: the handler is run on
every value; its effect is threaded as a state of type `σ`. -/
def SourceMap.Iterate {σ : Type} (rt : Runtime) (s : SourceMap)
    (handler : σ → Source → σ) (init : σ) : σ :=
  (rt.visit s.values).foldl handler init

/-- A parsed RTSP URL (`*url.URL` of gortsplib): the two fields the code reads. -/
structure RtspUrl where
  Scheme : String
  Host : String
  text : String
deriving DecidableEq, Repr

/-- What the program reads from the outside world. Errors are carried as messages. -/
structure Env where
  /-- `url.Parse` of gortsplib. -/
  urlParse : String → Except String RtspUrl
  /-- `gortsplib.Client.Start(scheme, host)`. -/
  clientStart : String → String → Except String Unit
  /-- `gortsplib.Client.Describe(u)`: the text of the final URL it returns. -/
  clientDescribe : RtspUrl → Except String String
  /-- `http.Client.Get(url)`: the response body. -/
  httpGet : String → Except String String
  /-- `os.Open(path)`: the contents of the file. -/
  osOpen : String → Except String String
  /-- `json.Decoder.Decode` into a `[]string`. -/
  jsonDecode : String → Except String (List String)
  /-- `csv.Reader.ReadAll`: every record has a first field. -/
  csvReadAll : String → Except String (List (String × List String))
  /-- `os.OpenFile(name, O_WRONLY|O_CREATE|O_TRUNC, 0777)` of an output file. -/
  osOpenFile : String → Except String Unit

/-- `func (s Source) UpdateFinalDestination() (Source, error)`. -/
def Source.UpdateFinalDestination (env : Env) (s : Source) : Except String Source :=
  match env.urlParse s.original with
  | .error err => .error err
  | .ok parsed =>
    match env.clientStart parsed.Scheme parsed.Host with
    | .error err => .error err
    | .ok _ =>
      match env.clientDescribe parsed with
      | .error err => .error err
      | .ok finalUrl => .ok { original := s.original, resolved := finalUrl }

/-- The body of the goroutine started by `ResolveSources` for one value, up to its
write: a failure is logged, a success is the Source the task adds to the staging map
`newSources`. -/
def resolveTask (env : Env) (source : Source) : Option Source :=
  match source.UpdateFinalDestination env with
  | .error _ => none
  | .ok newSource => some newSource

/-- The writes of the staging map that take effect. The tasks call `newSources.Add` on
a plain map with no lock: one write alone always lands; of two or more, all land when
they stay apart, one is lost when two overlap unnoticed, and the process stops (`none`)
when the runtime notices the overlap. -/
def stagedWrites (race : StagingRace) (writes : List Source) : Option (List Source) :=
  if writes.length < 2 then some writes
  else
    match race with
    | .apart => some writes
    | .fatal => none
    | .lost i => some (writes.eraseIdx i)

/-- `func (s SourceMap) ResolveSources()`: one task per value resolves it and writes
the staging map; after `wg.Wait()` every staged value is added to `s`. The result is
the map after the call, `none` when the process stops in the staging writes. -/
def SourceMap.ResolveSources (env : Env) (rt : Runtime) (s : SourceMap) :
    Option SourceMap :=
  let writes := (rt.visit s.values).filterMap (resolveTask env)
  match stagedWrites (rt.staging writes) writes with
  | none => none
  | some landed =>
    let newSources := landed.foldl SourceMap.Add (∅ : SourceMap)
    some ((rt.visit newSources.values).foldl SourceMap.Add s)

/-- The Go type `ConcurrentSourceMap`: a `SourceMap` with an embedded `sync.Mutex`
(the mutex is modelled by `MapOp` traces). -/
structure ConcurrentSourceMap where
  SourceMap : SourceMap
deriving DecidableEq

/-- `func (c *ConcurrentSourceMap) Add(source Source)`: the map write between
`c.Lock()` and `c.Unlock()`. -/
def ConcurrentSourceMap.Add (c : ConcurrentSourceMap) (source : Source) :
    ConcurrentSourceMap :=
  { SourceMap := AList.insert source.original source c.SourceMap }

/-- The Go type `FileExt` (a string type). -/
abbrev FileExt := String

/-- The constant `Csv`. -/
def Csv : FileExt := "csv"

/-- The constant `Json`. -/
def Json : FileExt := "json"

/-- The Go type `ArgSourcesList`. -/
structure ArgSourcesList where
  ConcurrentSourceMap : ConcurrentSourceMap
deriving DecidableEq

/-- The Go type `FileSourcesList`. -/
structure FileSourcesList where
  path : String
  ext : FileExt
  ConcurrentSourceMap : ConcurrentSourceMap
deriving DecidableEq

/-- The Go type `HttpSourcesList`. -/
structure HttpSourcesList where
  url : String
  ConcurrentSourceMap : ConcurrentSourceMap
deriving DecidableEq

/-- `func NewHttpSourcesList(path string) *HttpSourcesList`. -/
def NewHttpSourcesList (path : String) : HttpSourcesList :=
  { url := path, ConcurrentSourceMap := { SourceMap := ∅ } }

/-- `func NewFileSourcesList(path string, ext FileExt) *FileSourcesList`. -/
def NewFileSourcesList (path : String) (ext : FileExt) : FileSourcesList :=
  { ext := ext, path := path, ConcurrentSourceMap := { SourceMap := ∅ } }

/-- `func NewArgSourcesList(sources []Source) *ArgSourcesList`. -/
def NewArgSourcesList (sources : List Source) : ArgSourcesList :=
  let sourceMap : SourceMap :=
    sources.foldl (fun m source => AList.insert source.original source m) ∅
  { ConcurrentSourceMap := { SourceMap := sourceMap } }

/-- `func readSourcesFromJson(r io.Reader) ([]Source, error)`: the result slice is
made with `len(values)` zero elements and the decoded values are appended to it. -/
def readSourcesFromJson (env : Env) (r : String) : Except String (List Source) :=
  match env.jsonDecode r with
  | .error err => .error err
  | .ok values =>
    let sources : List Source :=
      List.replicate values.length { original := "", resolved := "" }
    .ok (values.foldl
      (fun sources value => sources ++ [{ original := value, resolved := "" }]) sources)

/-- `func readSourcesFromCsv(r io.Reader) ([]Source, error)`: `values` is declared and
never assigned, so the result slice is made with `len(values) = 0` elements. -/
def readSourcesFromCsv (env : Env) (r : String) : Except String (List Source) :=
  let values : List String := []
  match env.csvReadAll r with
  | .error err => .error err
  | .ok rows =>
    let sources : List Source :=
      List.replicate values.length { original := "", resolved := "" }
    .ok (rows.foldl
      (fun sources row => sources ++ [{ original := row.1, resolved := "" }]) sources)

/-- `func (h *HttpSourcesList) RefreshSources()`. -/
def HttpSourcesList.RefreshSources (env : Env) (h : HttpSourcesList) : HttpSourcesList :=
  match env.httpGet h.url with
  | .error _ => h
  | .ok body =>
    match readSourcesFromJson env body with
    | .error _ => h
    | .ok httpSources =>
      { h with ConcurrentSourceMap :=
          httpSources.foldl ConcurrentSourceMap.Add h.ConcurrentSourceMap }

/-- `func (f *FileSourcesList) RefreshSources()`: the `switch f.ext` has no default, so
with another extension `fileSources` stays nil. -/
def FileSourcesList.RefreshSources (env : Env) (f : FileSourcesList) : FileSourcesList :=
  match env.osOpen f.path with
  | .error _ => f
  | .ok file =>
    let decoded : Except String (List Source) :=
      if f.ext = Json then readSourcesFromJson env file
      else if f.ext = Csv then readSourcesFromCsv env file
      else .ok []
    match decoded with
    | .error _ => f
    | .ok fileSources =>
      { f with ConcurrentSourceMap :=
          fileSources.foldl ConcurrentSourceMap.Add f.ConcurrentSourceMap }

/-- `func (a *ArgSourcesList) RefreshSources()`: returns at once. -/
def ArgSourcesList.RefreshSources (a : ArgSourcesList) : ArgSourcesList :=
  a

/-- The Go interface `SourcesList` with its three implementations. -/
inductive SourcesList where
  | arg (a : ArgSourcesList)
  | file (f : FileSourcesList)
  | http (h : HttpSourcesList)
deriving DecidableEq

/-- The backing map of a provider. -/
def SourcesList.registry : SourcesList → SourceMap
  | .arg a => a.ConcurrentSourceMap.SourceMap
  | .file f => f.ConcurrentSourceMap.SourceMap
  | .http h => h.ConcurrentSourceMap.SourceMap

/-- The provider with its backing map replaced. -/
def SourcesList.withRegistry (m : SourceMap) : SourcesList → SourcesList
  | .arg a => .arg { a with ConcurrentSourceMap := { SourceMap := m } }
  | .file f => .file { f with ConcurrentSourceMap := { SourceMap := m } }
  | .http h => .http { h with ConcurrentSourceMap := { SourceMap := m } }

/-- Interface method `RefreshSources`. -/
def SourcesList.RefreshSources (env : Env) : SourcesList → SourcesList
  | .arg a => .arg a.RefreshSources
  | .file f => .file (f.RefreshSources env)
  | .http h => .http (h.RefreshSources env)

/-- Interface method `ResolveSources`: promoted from the embedded `SourceMap`. -/
def SourcesList.ResolveSources (env : Env) (rt : Runtime) (l : SourcesList) :
    Option SourcesList :=
  match l.registry.ResolveSources env rt with
  | none => none
  | some m => some (l.withRegistry m)

/-- Interface method `Iterate`: promoted from the embedded `SourceMap`. -/
def SourcesList.Iterate {σ : Type} (rt : Runtime) (l : SourcesList)
    (handler : σ → Source → σ) (init : σ) : σ :=
  l.registry.Iterate rt handler init

/-- Interface method `Get`: promoted from the embedded `SourceMap`. -/
def SourcesList.Get (l : SourcesList) (original : String) : Source × Bool :=
  l.registry.Get original

/-- Interface method `Add`: `ConcurrentSourceMap.Add`. -/
def SourcesList.Add (l : SourcesList) (source : Source) : SourcesList :=
  match l with
  | .arg a => .arg { a with ConcurrentSourceMap := a.ConcurrentSourceMap.Add source }
  | .file f => .file { f with ConcurrentSourceMap := f.ConcurrentSourceMap.Add source }
  | .http h => .http { h with ConcurrentSourceMap := h.ConcurrentSourceMap.Add source }

/-! ## printer.go -/

/-- The Go type `StdOutPrinter`. -/
structure StdOutPrinter where
  separator : String
deriving DecidableEq

/-- `func NewStdOutPrinter(separator string) *StdOutPrinter`. -/
def NewStdOutPrinter (separator : String) : StdOutPrinter :=
  { separator := separator }

/-- `func (p *StdOutPrinter) Print(list []Source)`: one `os.Stdout.WriteString` per
element; `stdout` is the text written before the call, the result the text after it. -/
def StdOutPrinter.Print (p : StdOutPrinter) (list : List Source) (stdout : String) :
    String :=
  list.foldl (fun out source => out ++ (source.resolved ++ p.separator)) stdout

/-- A Go `map[string]string`. -/
abbrev StringMap := AList (fun _ : String => String)

/-- The bytes of a Go string. A Go string is a sequence of bytes; it is held as a
Lean `String` with one character per byte, so a string of ASCII text is that text. -/
def goBytes (s : String) : List Nat :=
  s.toList.map Char.toNat

/-- The Go string with the given bytes. -/
def goString (bytes : List Nat) : String :=
  String.mk (bytes.map Char.ofNat)

/-- The rune `utf8.RuneError`, U+FFFD. -/
def RuneError : Nat := 0xFFFD

/-- The lowest second byte `unicode/utf8` accepts after the first byte `b0`. -/
def acceptLo (b0 : Nat) : Nat :=
  if b0 = 0xE0 then 0xA0 else if b0 = 0xF0 then 0x90 else 0x80

/-- The highest second byte `unicode/utf8` accepts after the first byte `b0`. -/
def acceptHi (b0 : Nat) : Nat :=
  if b0 = 0xED then 0x9F else if b0 = 0xF4 then 0x8F else 0xBF

/-- `utf8.DecodeRune` at the start of a byte sequence: the rune and its width, `none`
where `DecodeRune` reports an invalid encoding (`RuneError` with width 1, or width 0 at
the end of the input). -/
def runeAt : List Nat → Option (Nat × Nat)
  | [] => none
  | b0 :: rest =>
    if b0 < 0x80 then some (b0, 1)
    else if 0xC2 ≤ b0 ∧ b0 ≤ 0xDF then
      match rest with
      | b1 :: _ =>
        if 0x80 ≤ b1 ∧ b1 ≤ 0xBF then some ((b0 - 0xC0) * 64 + (b1 - 0x80), 2) else none
      | _ => none
    else if 0xE0 ≤ b0 ∧ b0 ≤ 0xEF then
      match rest with
      | b1 :: b2 :: _ =>
        if acceptLo b0 ≤ b1 ∧ b1 ≤ acceptHi b0 ∧ 0x80 ≤ b2 ∧ b2 ≤ 0xBF then
          some ((b0 - 0xE0) * 4096 + (b1 - 0x80) * 64 + (b2 - 0x80), 3)
        else none
      | _ => none
    else if 0xF0 ≤ b0 ∧ b0 ≤ 0xF4 then
      match rest with
      | b1 :: b2 :: b3 :: _ =>
        if acceptLo b0 ≤ b1 ∧ b1 ≤ acceptHi b0 ∧
            0x80 ≤ b2 ∧ b2 ≤ 0xBF ∧ 0x80 ≤ b3 ∧ b3 ≤ 0xBF then
          some ((b0 - 0xF0) * 262144 + (b1 - 0x80) * 4096 + (b2 - 0x80) * 64 + (b3 - 0x80), 4)
        else none
      | _ => none
    else none

/-- The loop of the JSON encoder over the bytes of a string, `fuel` bounding the number
of steps: a valid encoding gives its rune, an invalid byte gives U+FFFD and the loop
moves on by one byte. -/
def coerceLoop : Nat → List Nat → List Nat
  | 0, _ => []
  | _, [] => []
  | fuel + 1, b :: bs =>
    match runeAt (b :: bs) with
    | some (r, size) => r :: coerceLoop fuel ((b :: bs).drop size)
    | none => RuneError :: coerceLoop fuel bs

/-- The text `encoding/json` writes for a Go string: its bytes read as UTF-8, every
invalid byte replaced by U+FFFD. One step per byte is enough. -/
def toValidUTF8 (bs : List Nat) : List Nat :=
  coerceLoop bs.length bs

/-- The loop of `utf8.ValidString`. -/
def validLoop : Nat → List Nat → Bool
  | 0, bs => bs.isEmpty
  | _, [] => true
  | fuel + 1, b :: bs =>
    match runeAt (b :: bs) with
    | some (_, size) => validLoop fuel ((b :: bs).drop size)
    | none => false

/-- `utf8.ValidString(s)`. -/
def ValidString (s : String) : Bool :=
  validLoop (goBytes s).length (goBytes s)

/-- `utf8.AppendRune`: the UTF-8 encoding of a rune, that of U+FFFD for a surrogate or
a value out of range. -/
def EncodeRune (r : Nat) : List Nat :=
  if r < 0x80 then [r]
  else if r < 0x800 then [0xC0 + r / 64, 0x80 + r % 64]
  else if 0x10FFFF < r ∨ (0xD800 ≤ r ∧ r ≤ 0xDFFF) then [0xEF, 0xBF, 0xBD]
  else if r < 0x10000 then [0xE0 + r / 4096, 0x80 + r / 64 % 64, 0x80 + r % 64]
  else [0xF0 + r / 262144, 0x80 + r / 4096 % 64, 0x80 + r / 64 % 64, 0x80 + r % 64]

/-- The bytes of a text: the encodings of its runes one after the other. -/
def encodeUTF8 (text : List Nat) : List Nat :=
  text.flatMap EncodeRune

/-- A JSON string: the sequence of its Unicode code points. -/
abbrev JsonText := List Nat

/-- A JSON object: its members, name and value, in the order of the document. A
document is held as the value it denotes; how `encoding/json` spells a string inside
quotes and reads it back is not modelled. -/
abbrev JsonObject := List (JsonText × JsonText)

/-- Byte-wise comparison of two strings, `strings.Compare(a, b) <= 0`. -/
def bytesLe : List Nat → List Nat → Bool
  | [], _ => true
  | _ :: _, [] => false
  | a :: as, b :: bs => a < b || (a == b && bytesLe as bs)

/-- `json.Encoder.Encode` of a `map[string]string`: the members sorted by key, keys
and values written as valid UTF-8. -/
def jsonEncodeMap (m : StringMap) : JsonObject :=
  ((m.entries.map (fun e => (e.1, e.2))).insertionSort
      (fun a b => bytesLe (goBytes a.1) (goBytes b.1) = true)).map
    (fun member => (toValidUTF8 (goBytes member.1), toValidUTF8 (goBytes member.2)))

/-- `json.Decoder.Decode` of an object into a `map[string]string`: every member is
assigned in turn, a later one replacing an earlier one of the same name. -/
def jsonDecodeMap (doc : JsonObject) : StringMap :=
  doc.foldl
    (fun m member =>
      AList.insert (goString (encodeUTF8 member.1)) (goString (encodeUTF8 member.2)) m)
    ∅

/-- The map `WriterPrinter.Print` builds before encoding:
`sources[source.original] = source.resolved` for every element in turn. -/
def WriterPrinter.sources (list : List Source) : StringMap :=
  list.foldl (fun sources source => AList.insert source.original source.resolved sources) ∅

/-- `func (p *WriterPrinter) Print(list []Source)`: `w` is the sequence of documents
written to the writer so far; the writer takes every write. -/
def WriterPrinter.Print (list : List Source) (w : List JsonObject) : List JsonObject :=
  w ++ [jsonEncodeMap (WriterPrinter.sources list)]

/-- The records `CsvPrinter.Print` hands to `csv.Writer.WriteAll`. -/
def CsvPrinter.sources (list : List Source) : List (List String) :=
  list.foldl (fun sources source => sources ++ [[source.original, source.resolved]]) []

/-! ## cmd/rtsp_redirect_resolver.go -/

/-- Return code `Ok`. -/
def Ok : Nat := 0

/-- Return code `Error`. -/
def Error : Nat := 1

/-- Return code `NeedHelp`. -/
def NeedHelp : Nat := 2

/-- Format `args`. -/
def ReturnAsArgs : String := "args"

/-- Format `nl`. -/
def ReturnAsNewLines : String := "nl"

/-- Format `json`. -/
def ReturnAsJson : String := "json"

/-- Format `csv`. -/
def ReturnAsCsv : String := "csv"

/-- Format `http`. -/
def ReturnHttp : String := "http"

/-- `strings.HasPrefix(s, pre)`. -/
def HasPrefix (s pre : String) : Bool :=
  List.isPrefixOf pre.toList s.toList

/-- `strings.HasSuffix(s, suf)`. -/
def HasSuffix (s suf : String) : Bool :=
  List.isSuffixOf suf.toList s.toList

/-- Splitting a character sequence at every occurrence of `sep`. -/
def splitChars (sep : Char) : List Char → List (List Char)
  | [] => [[]]
  | c :: cs =>
    if c = sep then [] :: splitChars sep cs
    else
      match splitChars sep cs with
      | [] => [[c]]
      | field :: fields => (c :: field) :: fields

/-- `strings.Split(s, sep)` for a separator of one character. -/
def Split (s : String) (sep : Char) : List String :=
  (splitChars sep s.toList).map String.mk

/-- The value of a run of decimal digits, `none` when a character is not a digit. -/
def digitsValue : List Char → Nat → Option Nat
  | [], acc => some acc
  | c :: cs, acc =>
    if 48 ≤ c.toNat ∧ c.toNat ≤ 57 then digitsValue cs (acc * 10 + (c.toNat - 48))
    else none

/-- `strconv.Atoi(s)` with a 64-bit `int`: an optional sign and at least one decimal
digit, the value within the range of `int64`. The error carried is the text of the
`Err` field of the `*strconv.NumError` (`ErrSyntax` or `ErrRange`), without the
`strconv.Atoi: parsing ...:` in front. -/
def Atoi (s : String) : Except String Int :=
  let signed : Bool × List Char :=
    match s.toList with
    | '-' :: ds => (true, ds)
    | '+' :: ds => (false, ds)
    | ds => (false, ds)
  match signed.2 with
  | [] => .error "invalid syntax"
  | d :: ds =>
    match digitsValue (d :: ds) 0 with
    | none => .error "invalid syntax"
    | some n =>
      let v : Int := if signed.1 then -(n : Int) else (n : Int)
      if v < -(2 : Int) ^ 63 ∨ (2 : Int) ^ 63 - 1 < v then .error "value out of range"
      else .ok v

/-- Two-complement wrap-around of a 64-bit signed product. -/
def wrapInt64 (x : Int) : Int :=
  (x + 2 ^ 63) % 2 ^ 64 - 2 ^ 63

/-- `func getSourceList(address string) rtsp_redirect_resolver.SourcesList`, `none`
for the nil interface. -/
def getSourceList (address : String) : Option SourcesList :=
  if HasPrefix address "http" then some (.http (NewHttpSourcesList address))
  else if HasSuffix address ".json" then some (.file (NewFileSourcesList address Json))
  else if HasPrefix address "rtsp" then
    some (.arg (NewArgSourcesList [NewSource address]))
  else if HasSuffix address ".csv" then some (.file (NewFileSourcesList address Csv))
  else none

/-- `func refreshAndResolve(lists []SourcesList)`: every provider is refreshed and then
resolved; the providers after the call, `none` when the process stops in one of the
calls of `ResolveSources`. -/
def refreshAndResolve (env : Env) (rt : Runtime) :
    List SourcesList → Option (List SourcesList)
  | [] => some []
  | sourceList :: lists =>
    match (sourceList.RefreshSources env).ResolveSources env rt,
      refreshAndResolve env rt lists with
    | some resolved, some rest => some (resolved :: rest)
    | _, _ => none

/-- `func extractSources(lists []SourcesList) []Source`. -/
def extractSources (rt : Runtime) (lists : List SourcesList) : List Source :=
  lists.foldl
    (fun sources sourceList =>
      sourceList.Iterate rt (fun acc source => acc ++ [source]) sources)
    []

/-- The calls `run` makes on the providers, the printers and the HTTP server. -/
inductive Event where
  /-- `refreshAndResolve(sources)`. -/
  | refreshAndResolve (lists : List SourcesList)
  /-- `NewStdOutPrinter(separator).Print(list)`. -/
  | stdOutPrint (separator : String) (list : List Source)
  /-- `NewWriterPrinter(f).Print(list)` on the opened file `name`. -/
  | writerPrint (name : String) (list : List Source)
  /-- `NewCsvPrinter(f).Print(list)` on the opened file `name`. -/
  | csvPrint (name : String) (list : List Source)
  /-- `s.ListenAndServe()` on `addr`, the ticker running every `interval` seconds:
  each tick calls `refreshAndResolve`, each request `NewWriterPrinter(writer).Print`. -/
  | listenAndServe (addr : String) (interval : Int)
deriving DecidableEq

/-- How a call of `run` ends. -/
inductive Outcome where
  /-- `return code, err`. -/
  | returned (code : Nat) (err : Option String)
  /-- `time.NewTicker` panics on a non-positive duration. -/
  | panicked
  /-- The process stops with `fatal error: concurrent map writes`. -/
  | fatal
deriving DecidableEq

/-- The formats `run` tries, in the order of its loop. -/
def supportedFormats : List String :=
  [ReturnAsArgs, ReturnAsNewLines, ReturnAsJson, ReturnAsCsv, ReturnHttp]

/-- `func run(args []string) (int, error)`: how the call ends and the calls it made. -/
def run (env : Env) (rt : Runtime) (args : List String) : Outcome × List Event :=
  if args.length < 2 then (.returned NeedHelp (some "not enough arguments"), [])
  else
    let originalFormatArg := args.headD ""
    match supportedFormats.find? (fun supportedFormat =>
        HasPrefix originalFormatArg supportedFormat) with
    | none => (.returned NeedHelp (some ("unknown format: " ++ originalFormatArg)), [])
    | some format =>
      let sourceArgs := args.tail
      let sources := rt.visit (sourceArgs.filterMap getSourceList)
      if sources.length = 0 then (.returned Ok none, [])
      else if format = ReturnHttp then
        let httpArgs := Split originalFormatArg ':'
        if httpArgs.length < 3 then
          (.returned NeedHelp (some "wrong http arguments"), [])
        else
          let portStr := httpArgs.getD 1 ""
          let intervalStr := httpArgs.getD 2 ""
          match Atoi intervalStr with
          | .error err => (.returned Error (some err), [])
          | .ok interval =>
            if wrapInt64 (interval * 1000000000) ≤ 0 then (.panicked, [])
            else (.returned Ok none, [.listenAndServe (":" ++ portStr) interval])
      else
        match refreshAndResolve env rt sources with
        | none => (.fatal, [.refreshAndResolve sources])
        | some resolved =>
          let done : List Event := [.refreshAndResolve sources]
          if format = ReturnAsArgs then
            (.returned Ok none, done ++ [.stdOutPrint " " (extractSources rt resolved)])
          else if format = ReturnAsNewLines then
            (.returned Ok none, done ++ [.stdOutPrint "\n" (extractSources rt resolved)])
          else if format = ReturnAsJson then
            match env.osOpenFile "redirect_sources.json" with
            | .error err => (.returned Error (some err), done)
            | .ok _ =>
              (.returned Ok none,
                done ++ [.writerPrint "redirect_sources.json" (extractSources rt resolved)])
          else if format = ReturnAsCsv then
            match env.osOpenFile "redirect_sources.csv" with
            | .error err => (.returned Error (some err), done)
            | .ok _ =>
              (.returned Ok none,
                done ++ [.csvPrint "redirect_sources.csv" (extractSources rt resolved)])
          else (.returned Error (some ("unknown format: " ++ format)), done)

/-! ## Locking discipline of the registry methods -/

/-- What a method does to the mutex of a `ConcurrentSourceMap` and to the maps. -/
inductive MapOp where
  /-- `c.Lock()`. -/
  | Lock
  /-- `c.Unlock()`. -/
  | Unlock
  /-- A read of the backing map. -/
  | mapRead
  /-- A write of the backing map. -/
  | mapWrite
  /-- A write of the staging map `newSources` of `ResolveSources`. -/
  | stagingWrite
deriving DecidableEq, Repr

/-- Operations of `SourceMap.Add`: the assignment `s[source.original] = source`. -/
def SourceMap.AddOps : List MapOp :=
  [.mapWrite]

/-- Operations of `SourceMap.Get`: the read `s[original]`. -/
def SourceMap.GetOps : List MapOp :=
  [.mapRead]

/-- Operations of `SourceMap.Iterate`: the `range` over `s`. -/
def SourceMap.IterateOps : List MapOp :=
  [.mapRead]

/-- Operations of `ConcurrentSourceMap.Add`. -/
def ConcurrentSourceMap.AddOps : List MapOp :=
  [.Lock, .mapWrite, .Unlock]

/-- Operations of `SourceMap.ResolveSources`: those of the caller before `wg.Wait()`
(the `range` over `s`), those of each task, and those of the caller after `wg.Wait()`
(one `s.Add` per staged Source). -/
structure ResolveOps where
  range : List MapOp
  tasks : List (List MapOp)
  merge : List MapOp
deriving DecidableEq, Repr

/-- Operations of `SourceMap.ResolveSources` on the map `s`: the tasks call
`newSources.Add` and the merge calls `s.Add`, both `SourceMap.Add`; there is no merge
when the process stops in the staging writes. -/
def SourceMap.ResolveSourcesOps (env : Env) (rt : Runtime) (s : SourceMap) :
    ResolveOps :=
  let writes := (rt.visit s.values).filterMap (resolveTask env)
  { range := [.mapRead]
    tasks := (rt.visit s.values).map (fun source =>
      match source.UpdateFinalDestination env with
      | .error _ => []
      | .ok _ => SourceMap.AddOps.map (fun _ => MapOp.stagingWrite))
    merge :=
      match stagedWrites (rt.staging writes) writes with
      | none => []
      | some landed =>
        (rt.visit (landed.foldl SourceMap.Add (∅ : SourceMap)).values).flatMap
          (fun _ => SourceMap.AddOps) }

/-- The methods of the interface `SourcesList` that touch the backing map. -/
inductive Method where
  | Add
  | Get
  | Iterate
  | ResolveSources
deriving DecidableEq, Repr

/-- The operations a provider method performs on the mutex and the backing
map. `Add` is `ConcurrentSourceMap.Add`; the other three are promoted from `SourceMap`. -/
def providerOps (env : Env) (rt : Runtime) (s : SourceMap) : Method → List MapOp
  | .Add => ConcurrentSourceMap.AddOps
  | .Get => SourceMap.GetOps
  | .Iterate => SourceMap.IterateOps
  | .ResolveSources =>
    (s.ResolveSourcesOps env rt).range ++ (s.ResolveSourcesOps env rt).merge

/-- Whether every read and write of the backing map in a trace happens between a
`Lock` and the next `Unlock`; `held` tells whether the lock is held at the start. -/
def lockedThroughout (held : Bool) : List MapOp → Bool
  | [] => true
  | .Lock :: ops => lockedThroughout true ops
  | .Unlock :: ops => lockedThroughout false ops
  | .mapRead :: ops => held && lockedThroughout held ops
  | .mapWrite :: ops => held && lockedThroughout held ops
  | .stagingWrite :: ops => lockedThroughout held ops

/-- Whether a task writes the staging map while it holds no lock. -/
def writesStagingUnlocked (held : Bool) : List MapOp → Bool
  | [] => false
  | .Lock :: ops => writesStagingUnlocked true ops
  | .Unlock :: ops => writesStagingUnlocked false ops
  | .stagingWrite :: ops => !held || writesStagingUnlocked held ops
  | _ :: ops => writesStagingUnlocked held ops

/-- Whether the tasks, which run at the same time, cannot write the staging map at the
same time: at most one of them writes it outside a lock. -/
def stagingExclusive (tasks : List (List MapOp)) : Bool :=
  (tasks.filter (writesStagingUnlocked false)).length ≤ 1

/-! ## The claims in the words of the specification -/

/-- The output-mode selectors the specification accepts: exactly `args`, `nl`, `json`
or `csv`, or `http:<port>:<refresh_interval_seconds>` with an integer interval. -/
def selectorWellFormed (selector : String) : Bool :=
  selector = "args" || selector = "nl" || selector = "json" || selector = "csv" ||
    (match Split selector ':' with
      | [mode, _, interval] =>
        mode = "http" && (match Atoi interval with
          | .ok _ => true
          | .error _ => false)
      | _ => false)

/-! ## Concrete inputs -/

/-- A world in which `http://lists/remote` serves the two addresses of the end-to-end
scenario, `list.json` and `list.csv` are readable files, `broken.json` does not
decode, and every `rtsp` address but `rtsp://h/s2` is redirected to its `/final`. -/
def sampleEnv : Env where
  urlParse := fun address =>
    if HasPrefix address "rtsp" then .ok { Scheme := "rtsp", Host := "h", text := address }
    else .error "unsupported scheme"
  clientStart := fun _ _ => .ok ()
  clientDescribe := fun u =>
    if u.text = "rtsp://h/s2" then .error "request timed out" else .ok (u.text ++ "/final")
  httpGet := fun url =>
    if url = "http://lists/remote" then .ok "remote list" else .error "connection refused"
  osOpen := fun path =>
    if path = "list.json" then .ok "json list"
    else if path = "list.csv" then .ok "csv list"
    else if path = "broken.json" then .ok "not json"
    else .error "no such file or directory"
  jsonDecode := fun body =>
    if body = "remote list" then .ok ["rtsp://h/s2", "rtsp://h/s3"]
    else if body = "json list" then .ok ["rtsp://h/s5"]
    else .error "invalid character"
  csvReadAll := fun body =>
    if body = "csv list" then .ok [("rtsp://h/s4", ["front door"])]
    else .error "bare quote in field"
  osOpenFile := fun _ => .ok ()

/-- A registry with one resolved and one unresolved entry. -/
def sampleRegistry : SourceMap :=
  ((∅ : SourceMap).Add { original := "rtsp://h/s2", resolved := "rtsp://edge/s2" }).Add
    { original := "rtsp://h/s1", resolved := "" }

/-- A registry of two unresolved entries, both of which resolve in `sampleEnv`. -/
def raceRegistry : SourceMap :=
  ((∅ : SourceMap).Add { original := "rtsp://h/s3", resolved := "" }).Add
    { original := "rtsp://h/s1", resolved := "" }

/-- The two providers of the end-to-end scenario. -/
def scenarioLists : List SourcesList :=
  [.arg (NewArgSourcesList [NewSource "rtsp://h/s1"]),
   .http (NewHttpSourcesList "http://lists/remote")]

/-- A registry whose entry for the empty address carries a resolved value. -/
def emptyKeyRegistry : SourceMap :=
  (∅ : SourceMap).Add { original := "", resolved := "rtsp://edge/root" }

/-- The snapshot of the round-trip example of the specification. -/
def roundTripSnapshot : List Source :=
  [{ original := "rtsp://a/1", resolved := "rtsp://b/1" },
   { original := "rtsp://a/2", resolved := "" }]

/-- A snapshot in which every address is resolved. -/
def resolvedSnapshot : List Source :=
  [{ original := "rtsp://a/1", resolved := "rtsp://b/1" },
   { original := "rtsp://a/2", resolved := "rtsp://b/2" }]

/-- A snapshot of two sources whose originals differ in one byte, neither byte valid
UTF-8. -/
def invalidSnapshot : List Source :=
  [{ original := "rtsp://h/\xff", resolved := "rtsp://e/1" },
   { original := "rtsp://h/\xfe", resolved := "rtsp://e/2" }]

/-! ## Auxiliary definitions for the proofs -/

/-- The registry states a provider goes through: every key is the original of its
value, and the Source of the empty address carries no resolved value (a resolved value
is written by `UpdateFinalDestination` only, and `url.Parse` rejects the empty
address). -/
def SourceMap.Sound (s : SourceMap) : Prop :=
  ∀ k v, s.lookup k = some v → v.original = k ∧ (k = "" → v.resolved = "")

/-- The last element of a list with a given original, or the initial value. -/
def lastWithOriginal (k : String) (init : Option Source) (l : List Source) :
    Option Source :=
  l.foldl (fun acc x => if x.original = k then some x else acc) init

/-! ## Decoders -/

/-- Appending one element per step is appending the mapped list. -/
theorem foldl_append_singleton {α β : Type} (g : α → β) (vs : List α) :
    ∀ acc : List β, vs.foldl (fun out v => out ++ [g v]) acc = acc ++ vs.map g := by
  induction vs with
  | nil => intro acc; simp
  | cons v vs ih => intro acc; simp [ih]

/-- The structured-document decoder on an input that decodes to `values`. -/
theorem readSourcesFromJson_decoded (env : Env) (r : String)
    (values : List String) (hdec : env.jsonDecode r = .ok values) :
    readSourcesFromJson env r =
      .ok (List.replicate values.length { original := "", resolved := "" } ++
        values.map (fun value => { original := value, resolved := "" })) := by
  simp only [readSourcesFromJson, hdec]
  rw [foldl_append_singleton (fun value => ({ original := value, resolved := "" } : Source))]

/-- C2 (what the code does): when the input decodes to `values`, `readSourcesFromJson`
returns `len(values)` zero Sources followed by one Source per value: twice as many
elements as the input has, not as many. -/
theorem readSourcesFromJson_zero_sources_first (env : Env) (r : String)
    (values : List String) (hdec : env.jsonDecode r = .ok values) :
    ∃ sources, readSourcesFromJson env r = .ok sources ∧
      sources = List.replicate values.length { original := "", resolved := "" } ++
        values.map (fun value => { original := value, resolved := "" }) ∧
      sources.length = 2 * values.length := by
  refine ⟨_, readSourcesFromJson_decoded env r values hdec, rfl, ?_⟩
  simp only [List.length_append, List.length_replicate, List.length_map]
  omega

/-- C2 at a one-element input: two Sources come back, the first one empty. -/
theorem readSourcesFromJson_zero_sources_first_witness :
    sampleEnv.jsonDecode "json list" = .ok ["rtsp://h/s5"] ∧
    ∃ sources, readSourcesFromJson sampleEnv "json list" = .ok sources ∧
      sources = [{ original := "", resolved := "" },
                 { original := "rtsp://h/s5", resolved := "" }] ∧
      sources.length = 2 * ["rtsp://h/s5"].length :=
  ⟨by rfl,
    readSourcesFromJson_zero_sources_first sampleEnv "json list" ["rtsp://h/s5"] (by rfl)⟩

/-- The tabular decoder returns exactly one Source per record. -/
theorem readSourcesFromCsv_one_per_record (env : Env) (r : String)
    (rows : List (String × List String)) (hdec : env.csvReadAll r = .ok rows) :
    readSourcesFromCsv env r =
      .ok (rows.map (fun row => { original := row.1, resolved := "" })) := by
  simp only [readSourcesFromCsv, hdec]
  rw [foldl_append_singleton (fun row : String × List String =>
    ({ original := row.1, resolved := "" } : Source))]
  simp

/-! ## Plain-text output -/

/-- The accumulator loop of `String.intercalate` against the write loop of `Print`. -/
theorem intercalate_go_foldl (sep : String) (rest : List String) :
    ∀ (acc out : String),
      rest.foldl (fun out r => out ++ (r ++ sep)) (out ++ (acc ++ sep)) =
        out ++ (String.intercalate.go acc sep rest ++ sep) := by
  induction rest with
  | nil => intro acc out; simp [String.intercalate.go]
  | cons b bs ih =>
    intro acc out
    have h := ih (acc ++ sep ++ b) out
    simp only [List.foldl_cons, String.intercalate.go]
    rw [← h]
    simp only [String.append_assoc]

/-- C8 (amended): `StdOutPrinter.Print` writes the resolved addresses in snapshot
order, each followed by the separator: the separator-joined text, and after it one more
separator unless the snapshot is empty. -/
theorem StdOutPrinter_Print_terminates_each (p : StdOutPrinter) (list : List Source)
    (stdout : String) :
    p.Print list stdout =
      stdout ++ (p.separator.intercalate (list.map (fun source => source.resolved)) ++
        (if list = [] then "" else p.separator)) := by
  cases list with
  | nil => simp [StdOutPrinter.Print, String.intercalate]
  | cons a rest =>
    simp only [StdOutPrinter.Print, List.foldl_cons, List.map_cons, String.intercalate]
    have h := intercalate_go_foldl p.separator
      (rest.map (fun source => source.resolved)) a.resolved stdout
    simp only [List.foldl_map] at h
    simpa using h

/-- C8 (as stated) fails: for a snapshot of two resolved addresses and the separator of
the args mode the text written ends in a separator, so it is not the joined text. -/
theorem StdOutPrinter_Print_not_joined :
    (NewStdOutPrinter " ").Print resolvedSnapshot "" = "rtsp://b/1 rtsp://b/2 " ∧
    " ".intercalate (resolvedSnapshot.map (fun source => source.resolved)) =
      "rtsp://b/1 rtsp://b/2" ∧
    (NewStdOutPrinter " ").Print resolvedSnapshot "" ≠
      " ".intercalate (resolvedSnapshot.map (fun source => source.resolved)) := by
  decide


/-! ## Refresh failures -/

/-- C4: when fetching or opening the input fails, or the decoder in use returns an
error, `RefreshSources` of a remote-endpoint or file provider returns the provider as
it was: same keys, same Sources. -/
theorem RefreshSources_failure_keeps_registry (env : Env) (l : SourcesList)
    (hfail :
      (∃ h e, l = .http h ∧ env.httpGet h.url = .error e) ∨
      (∃ h body e, l = .http h ∧ env.httpGet h.url = .ok body ∧
        readSourcesFromJson env body = .error e) ∨
      (∃ f e, l = .file f ∧ env.osOpen f.path = .error e) ∨
      (∃ f file e, l = .file f ∧ env.osOpen f.path = .ok file ∧ f.ext = Json ∧
        readSourcesFromJson env file = .error e) ∨
      (∃ f file e, l = .file f ∧ env.osOpen f.path = .ok file ∧ f.ext = Csv ∧
        readSourcesFromCsv env file = .error e)) :
    l.RefreshSources env = l ∧ (l.RefreshSources env).registry = l.registry := by
  have key : l.RefreshSources env = l := by
    rcases hfail with ⟨h, e, rfl, hget⟩ | ⟨h, body, e, rfl, hget, hdec⟩ |
      ⟨f, e, rfl, hopen⟩ | ⟨f, file, e, rfl, hopen, hext, hdec⟩ |
      ⟨f, file, e, rfl, hopen, hext, hdec⟩
    · simp [SourcesList.RefreshSources, HttpSourcesList.RefreshSources, hget]
    · simp [SourcesList.RefreshSources, HttpSourcesList.RefreshSources, hget, hdec]
    · simp [SourcesList.RefreshSources, FileSourcesList.RefreshSources, hopen]
    · simp [SourcesList.RefreshSources, FileSourcesList.RefreshSources, hopen, hext, hdec]
    · have hne : ¬ (Csv = Json) := by decide
      simp [SourcesList.RefreshSources, FileSourcesList.RefreshSources, hopen, hne, hext,
        hdec]
  exact ⟨key, by rw [key]⟩

/-- C4 at a file provider with two entries whose file does not decode. -/
theorem RefreshSources_failure_keeps_registry_witness :
    (SourcesList.file ⟨"broken.json", Json, ⟨sampleRegistry⟩⟩).RefreshSources sampleEnv =
      SourcesList.file ⟨"broken.json", Json, ⟨sampleRegistry⟩⟩ ∧
    ((SourcesList.file ⟨"broken.json", Json, ⟨sampleRegistry⟩⟩).RefreshSources
      sampleEnv).registry = sampleRegistry :=
  RefreshSources_failure_keeps_registry sampleEnv
    (.file ⟨"broken.json", Json, ⟨sampleRegistry⟩⟩)
    (Or.inr (Or.inr (Or.inr (Or.inl
      ⟨⟨"broken.json", Json, ⟨sampleRegistry⟩⟩, "not json", "invalid character",
        rfl, by rfl, by rfl, by rfl⟩))))

/-! ## Source arguments -/

/-- C9 (what the code does): an argument that begins with `rtsp` and ends in `.json`
is turned into a file provider with an empty registry, not into a static-list provider
holding the address. -/
theorem getSourceList_rtsp_json_is_file :
    HasPrefix "rtsp://h/live.json" "rtsp" = true ∧
    getSourceList "rtsp://h/live.json" =
      some (.file (NewFileSourcesList "rtsp://h/live.json" Json)) ∧
    (NewFileSourcesList "rtsp://h/live.json" Json).ConcurrentSourceMap.SourceMap.keys = [] ∧
    getSourceList "rtsp://h/live.csv" =
      some (.arg (NewArgSourcesList [NewSource "rtsp://h/live.csv"])) := by
  refine ⟨by decide, by rfl, by rfl, by rfl⟩

/-- A string that begins with `rtsp` does not begin with `http`. -/
theorem not_http_of_rtsp (address : String) (h : HasPrefix address "rtsp" = true) :
    HasPrefix address "http" = false := by
  unfold HasPrefix at *
  have h1 : "rtsp".toList = ['r', 't', 's', 'p'] := by decide
  have h2 : "http".toList = ['h', 't', 't', 'p'] := by decide
  rw [h1] at h
  rw [h2]
  cases hl : address.toList with
  | nil => rw [hl] at h; simp [List.isPrefixOf] at h
  | cons c cs =>
    rw [hl] at h
    simp only [List.isPrefixOf, Bool.and_eq_true, beq_iff_eq] at h
    have hc : c = 'r' := h.1.symm
    subst hc
    simp [List.isPrefixOf]

/-- Off the `.json` suffix the static-list path is taken: an argument that begins with
`rtsp` and does not end in `.json` gives a static-list provider whose registry holds
exactly the one entry for the argument, with an empty resolved value. -/
theorem getSourceList_rtsp_static (address : String)
    (hrtsp : HasPrefix address "rtsp" = true) (hjson : HasSuffix address ".json" = false) :
    ∃ a, getSourceList address = some (.arg a) ∧
      a.ConcurrentSourceMap.SourceMap.entries =
        [⟨address, { original := address, resolved := "" }⟩] := by
  refine ⟨NewArgSourcesList [NewSource address], ?_, ?_⟩
  · simp [getSourceList, not_http_of_rtsp address hrtsp, hjson, hrtsp]
  · simp [NewArgSourcesList, NewSource, AList.insert_entries]

/-- The static-list path at a plain stream address. -/
theorem getSourceList_rtsp_static_witness :
    ∃ a, getSourceList "rtsp://h/s1" = some (.arg a) ∧
      a.ConcurrentSourceMap.SourceMap.entries =
        [⟨"rtsp://h/s1", { original := "rtsp://h/s1", resolved := "" }⟩] :=
  getSourceList_rtsp_static "rtsp://h/s1" (by decide) (by decide)


/-! ## Output-mode selector -/

/-- A string that begins with `http` begins with none of `args`, `nl`, `json`, `csv`,
so the loop of `run` over the supported formats stops at `http`. -/
theorem find_format_http (selector : String) (h : HasPrefix selector "http" = true) :
    supportedFormats.find? (fun supportedFormat => HasPrefix selector supportedFormat) =
      some ReturnHttp := by
  have key : ∀ c : Char, c ≠ 'h' → ∀ rest : List Char,
      List.isPrefixOf (c :: rest) selector.toList = false := by
    intro c hc rest
    unfold HasPrefix at h
    have h2 : "http".toList = ['h', 't', 't', 'p'] := by decide
    rw [h2] at h
    cases hl : selector.toList with
    | nil => rw [hl] at h; simp [List.isPrefixOf] at h
    | cons d ds =>
      rw [hl] at h
      simp only [List.isPrefixOf, Bool.and_eq_true, beq_iff_eq] at h
      have hd : d = 'h' := h.1.symm
      subst hd
      simp [List.isPrefixOf, hc]
  have ha : HasPrefix selector ReturnAsArgs = false := by
    have e : ReturnAsArgs.toList = ['a', 'r', 'g', 's'] := by decide
    unfold HasPrefix; rw [e]; exact key 'a' (by decide) _
  have hn : HasPrefix selector ReturnAsNewLines = false := by
    have e : ReturnAsNewLines.toList = ['n', 'l'] := by decide
    unfold HasPrefix; rw [e]; exact key 'n' (by decide) _
  have hj : HasPrefix selector ReturnAsJson = false := by
    have e : ReturnAsJson.toList = ['j', 's', 'o', 'n'] := by decide
    unfold HasPrefix; rw [e]; exact key 'j' (by decide) _
  have hc : HasPrefix selector ReturnAsCsv = false := by
    have e : ReturnAsCsv.toList = ['c', 's', 'v'] := by decide
    unfold HasPrefix; rw [e]; exact key 'c' (by decide) _
  have hh : HasPrefix selector ReturnHttp = true := h
  simp [supportedFormats, List.find?, ha, hn, hj, hc, hh]

/-- C10 (amended): with at least one source argument, a selector that begins with none
of `args`, `nl`, `json`, `csv`, `http` makes `run` return `NeedHelp`; a selector that
begins with `http`, when some source argument is of a supported kind, makes `run`
return `NeedHelp` if it has fewer than three colon-separated fields and `Error` if its
third field is not an integer; in all three cases `run` makes no call that refreshes,
resolves, prints or serves sources. -/
theorem run_rejects_selector (env : Env) (rt : Runtime) (args : List String)
    (hlen : 2 ≤ args.length) :
    ((∀ f ∈ supportedFormats, HasPrefix (args.headD "") f = false) →
      run env rt args =
        (.returned NeedHelp (some ("unknown format: " ++ args.headD "")), [])) ∧
    (HasPrefix (args.headD "") "http" = true →
      (∃ a ∈ args.tail, (getSourceList a).isSome = true) →
      ((Split (args.headD "") ':').length < 3 →
        run env rt args = (.returned NeedHelp (some "wrong http arguments"), [])) ∧
      (3 ≤ (Split (args.headD "") ':').length →
        ∀ e, Atoi ((Split (args.headD "") ':').getD 2 "") = .error e →
          run env rt args = (.returned Error (some e), []))) := by
  have hlt : ¬ args.length < 2 := by omega
  refine ⟨?_, ?_⟩
  · intro hnone
    have hfind : supportedFormats.find?
        (fun supportedFormat => HasPrefix (args.headD "") supportedFormat) = none := by
      rw [List.find?_eq_none]
      intro f hf
      rw [hnone f hf]
      simp
    simp only [run, hlt, if_false, hfind]
  · intro hhttp ⟨a, ha, hsome⟩
    have hfind := find_format_http (args.headD "") hhttp
    have hsrc : ¬ (rt.visit (args.tail.filterMap getSourceList)).length = 0 := by
      rw [(rt.visit_perm _).length_eq]
      obtain ⟨l, hl⟩ := Option.isSome_iff_exists.mp hsome
      have : l ∈ args.tail.filterMap getSourceList := List.mem_filterMap.mpr ⟨a, ha, hl⟩
      intro h0
      rw [List.length_eq_zero] at h0
      rw [h0] at this
      exact List.not_mem_nil _ this
    refine ⟨?_, ?_⟩
    · intro hfields
      simp only [run, hlt, if_false, hfind, hsrc, if_true, hfields]
    · intro hfields e he
      have hnot : ¬ (Split (args.headD "") ':').length < 3 := by omega
      simp only [run, hlt, if_false, hfind, hsrc, if_true, hnot, he]

/-- C10 (amended) at three argument lists: an unknown selector, an `http` selector
with two fields and an `http` selector whose interval is not a number. -/
theorem run_rejects_selector_witness :
    run sampleEnv .asStored ["xml", "rtsp://h/s1"] =
      (.returned NeedHelp (some "unknown format: xml"), []) ∧
    run sampleEnv .asStored ["http:8123", "rtsp://h/s1"] =
      (.returned NeedHelp (some "wrong http arguments"), []) ∧
    run sampleEnv .asStored ["http:8123:soon", "rtsp://h/s1"] =
      (.returned Error (some "invalid syntax"), []) :=
  ⟨(run_rejects_selector sampleEnv .asStored ["xml", "rtsp://h/s1"] (by decide)).1
      (by decide),
   ((run_rejects_selector sampleEnv .asStored ["http:8123", "rtsp://h/s1"] (by decide)).2
      (by decide) ⟨"rtsp://h/s1", by decide, by rfl⟩).1 (by decide),
   ((run_rejects_selector sampleEnv .asStored ["http:8123:soon", "rtsp://h/s1"]
      (by decide)).2 (by decide) ⟨"rtsp://h/s1", by decide, by rfl⟩).2 (by decide)
      "invalid syntax" (by rfl)⟩

/-- C10 (as stated) fails: the selector `http:8123:soon` is none of the accepted forms,
and `run` returns `Error`, not `NeedHelp`. -/
theorem run_malformed_interval_is_Error :
    2 ≤ ["http:8123:soon", "rtsp://h/s1"].length ∧
    selectorWellFormed "http:8123:soon" = false ∧
    (run sampleEnv .asStored ["http:8123:soon", "rtsp://h/s1"]).1 =
      .returned Error (some "invalid syntax") ∧
    (run sampleEnv .asStored ["http:8123:soon", "rtsp://h/s1"]).1 ≠
      .returned NeedHelp (some "invalid syntax") ∧
    Error ≠ NeedHelp := by
  refine ⟨by decide, by decide, by decide, by decide, by decide⟩

/-- The selector `argsfoo` is none of the accepted forms either; `run` takes it for
`args`, refreshes, resolves, prints and returns `Ok`. -/
theorem run_accepts_selector_by_its_beginning :
    selectorWellFormed "argsfoo" = false ∧
    (run sampleEnv .asStored ["argsfoo", "rtsp://h/s1"]).1 = .returned Ok none ∧
    (run sampleEnv .asStored ["argsfoo", "rtsp://h/s1"]).2 =
      [.refreshAndResolve [.arg (NewArgSourcesList [NewSource "rtsp://h/s1"])],
       .stdOutPrint " "
         [{ original := "rtsp://h/s1", resolved := "rtsp://h/s1/final" }]] := by
  refine ⟨by decide, by decide, by rfl⟩

/-- When no source argument is of a supported kind `run` returns `Ok` before it looks
at the fields of an `http` selector. -/
theorem run_no_supported_source_is_Ok :
    selectorWellFormed "http:8123" = false ∧
    run sampleEnv .asStored ["http:8123", "stream.txt"] = (.returned Ok none, []) := by
  refine ⟨by decide, by rfl⟩


/-! ## Registry lemmas -/

/-- Reading a key after `Add`. -/
theorem lookup_Add (s : SourceMap) (x : Source) (k : String) :
    (s.Add x).lookup k = if x.original = k then some x else s.lookup k := by
  by_cases h : x.original = k
  · subst h
    simp [SourceMap.Add, AList.lookup_insert]
  · have h2 : k ≠ x.original := fun e => h e.symm
    simp [SourceMap.Add, AList.lookup_insert_ne h2, h]

/-- Reading a key after a run of `Add`s: the last Source added under it wins. -/
theorem lookup_foldl_Add (k : String) (l : List Source) :
    ∀ s : SourceMap, (l.foldl SourceMap.Add s).lookup k = lastWithOriginal k (s.lookup k) l := by
  induction l with
  | nil => intro s; rfl
  | cons x xs ih =>
    intro s
    simp only [List.foldl_cons, lastWithOriginal]
    rw [ih (s.Add x), lookup_Add]
    rfl

/-- No element with the original: the initial value stays. -/
theorem lastWithOriginal_none (k : String) (l : List Source) :
    ∀ init, (∀ x ∈ l, x.original ≠ k) → lastWithOriginal k init l = init := by
  induction l with
  | nil => intro init _; rfl
  | cons x xs ih =>
    intro init h
    have hx : x.original ≠ k := h x (List.mem_cons_self _ _)
    have hxs : ∀ y ∈ xs, y.original ≠ k := fun y hy => h y (List.mem_cons_of_mem _ hy)
    have := ih init hxs
    simp only [lastWithOriginal, List.foldl_cons, hx, if_false] at this ⊢
    exact this

/-- When every element with the original is `v` and there is one, the result is `v`. -/
theorem lastWithOriginal_some (k : String) (v : Source) (l : List Source) :
    ∀ init, (∃ x ∈ l, x.original = k) → (∀ x ∈ l, x.original = k → x = v) →
      lastWithOriginal k init l = some v := by
  induction l with
  | nil => intro init ⟨x, hx, _⟩ _; exact absurd hx (List.not_mem_nil _)
  | cons a xs ih =>
    intro init hex hall
    have hxs : ∀ y ∈ xs, y.original = k → y = v :=
      fun y hy => hall y (List.mem_cons_of_mem _ hy)
    by_cases hin : ∃ x ∈ xs, x.original = k
    · have := ih (if a.original = k then some a else init) hin hxs
      simpa [lastWithOriginal] using this
    · have hnone : ∀ y ∈ xs, y.original ≠ k := fun y hy e => hin ⟨y, hy, e⟩
      obtain ⟨x, hx, hxk⟩ := hex
      have hxa : x = a := by
        rcases List.mem_cons.mp hx with h | h
        · exact h
        · exact absurd hxk (hnone x h)
      subst hxa
      have hv : x = v := hall x (List.mem_cons_self _ _) hxk
      have := lastWithOriginal_none k xs (some x) hnone
      simp only [lastWithOriginal, List.foldl_cons, hxk, if_true] at this ⊢
      rw [this, hv]

/-- A value of the map is what some key reads. -/
theorem mem_values_iff (s : SourceMap) (v : Source) :
    v ∈ s.values ↔ ∃ k, s.lookup k = some v := by
  simp only [SourceMap.values, List.mem_map]
  constructor
  · rintro ⟨⟨k, w⟩, hmem, rfl⟩
    exact ⟨k, (AList.mem_lookup_iff).mpr hmem⟩
  · rintro ⟨k, hk⟩
    exact ⟨⟨k, v⟩, (AList.mem_lookup_iff).mp hk, rfl⟩

/-- In a map keyed by original, the values with original `k` are what `k` reads. -/
theorem mem_values_original_iff (s : SourceMap)
    (hkey : ∀ k v, s.lookup k = some v → v.original = k) (k : String) (v : Source) :
    (v ∈ s.values ∧ v.original = k) ↔ s.lookup k = some v := by
  constructor
  · rintro ⟨hv, hk⟩
    obtain ⟨k2, h2⟩ := (mem_values_iff s v).mp hv
    have := hkey k2 v h2
    rw [← hk, this]
    exact h2
  · intro h
    exact ⟨(mem_values_iff s v).mpr ⟨k, h⟩, hkey k v h⟩

/-- Adding the values of a map keyed by original, in any order, to a map `s`: a key of
the added map reads the added value, any other key reads what it read in `s`. -/
theorem lookup_foldl_Add_values (m s : SourceMap)
    (hm : ∀ k v, m.lookup k = some v → v.original = k)
    (l : List Source) (hl : l.Perm m.values) (k : String) :
    (l.foldl SourceMap.Add s).lookup k =
      match m.lookup k with
      | some n => some n
      | none => s.lookup k := by
  rw [lookup_foldl_Add]
  cases hmk : m.lookup k with
  | none =>
    apply lastWithOriginal_none
    intro x hx e
    have hx2 : x ∈ m.values := hl.mem_iff.mp hx
    have := (mem_values_original_iff m hm k x).mp ⟨hx2, e⟩
    rw [hmk] at this
    exact Option.noConfusion this
  | some n =>
    apply lastWithOriginal_some
    · exact ⟨n, hl.mem_iff.mpr ((mem_values_original_iff m hm k n).mpr hmk).1,
        ((mem_values_original_iff m hm k n).mpr hmk).2⟩
    · intro x hx e
      have hx2 : x ∈ m.values := hl.mem_iff.mp hx
      have := (mem_values_original_iff m hm k x).mp ⟨hx2, e⟩
      rw [hmk] at this
      exact (Option.some.inj this).symm

/-- `Add` keeps a map keyed by original. -/
theorem keyed_Add (s : SourceMap) (hkey : ∀ k v, s.lookup k = some v → v.original = k)
    (x : Source) : ∀ k v, (s.Add x).lookup k = some v → v.original = k := by
  intro k v h
  rw [lookup_Add] at h
  by_cases hx : x.original = k
  · simp only [hx, if_true] at h
    rw [← Option.some.inj h]
    exact hx
  · simp only [hx, if_false] at h
    exact hkey k v h

/-- A run of `Add`s keeps a map keyed by original. -/
theorem keyed_foldl_Add (l : List Source) :
    ∀ s : SourceMap, (∀ k v, s.lookup k = some v → v.original = k) →
      ∀ k v, (l.foldl SourceMap.Add s).lookup k = some v → v.original = k := by
  induction l with
  | nil => intro s h; exact h
  | cons x xs ih => intro s h; exact ih (s.Add x) (keyed_Add s h x)

/-- The empty map is keyed by original. -/
theorem keyed_empty : ∀ k v, (∅ : SourceMap).lookup k = some v → v.original = k := by
  intro k v h
  simp [AList.lookup_empty] at h


/-! ## Resolution -/

/-- The resolver reads only the original of its receiver and keeps it. -/
theorem UpdateFinalDestination_ok (env : Env) (src n : Source)
    (h : src.UpdateFinalDestination env = .ok n) :
    n.original = src.original ∧
      (NewSource src.original).UpdateFinalDestination env = .ok n := by
  have h2 : (NewSource src.original).UpdateFinalDestination env =
      src.UpdateFinalDestination env := rfl
  refine ⟨?_, by rw [h2, h]⟩
  unfold Source.UpdateFinalDestination at h
  split at h
  · exact Except.noConfusion h
  · split at h
    · exact Except.noConfusion h
    · split at h
      · exact Except.noConfusion h
      · injection h with h
        rw [← h]

/-- A task writes exactly what the resolver returns. -/
theorem resolveTask_eq_some (env : Env) (src n : Source) :
    resolveTask env src = some n ↔ src.UpdateFinalDestination env = .ok n := by
  unfold resolveTask
  cases h : src.UpdateFinalDestination env with
  | error e => simp
  | ok m => simp

/-- A failed task writes nothing. -/
theorem resolveTask_eq_none (env : Env) (src : Source) :
    resolveTask env src = none ↔ ∃ e, src.UpdateFinalDestination env = .error e := by
  unfold resolveTask
  cases h : src.UpdateFinalDestination env with
  | error e => simp
  | ok m => simp

/-- Every write of the tasks under a key is the result for the entry of that key. -/
theorem writes_original (env : Env) (s : SourceMap)
    (hkey : ∀ k v, s.lookup k = some v → v.original = k)
    (l : List Source) (hl : l.Perm s.values) (k : String) :
    ∀ n ∈ l.filterMap (resolveTask env), n.original = k →
      ∃ v, s.lookup k = some v ∧ v.UpdateFinalDestination env = .ok n := by
  intro n hn hnk
  obtain ⟨src, hsrc, hres⟩ := List.mem_filterMap.mp hn
  have hok := (resolveTask_eq_some env src n).mp hres
  have horig := (UpdateFinalDestination_ok env src n hok).1
  have hin : src ∈ s.values := hl.mem_iff.mp hsrc
  have := (mem_values_original_iff s hkey k src).mp ⟨hin, by rw [← horig, hnk]⟩
  exact ⟨src, this, hok⟩

/-- What the staging map reads at the key of an entry, and at a key that is not in the
map, when every write of the tasks has landed. -/
theorem staging_lookup (env : Env) (s : SourceMap)
    (hkey : ∀ k v, s.lookup k = some v → v.original = k)
    (l : List Source) (hl : l.Perm s.values) (k : String) :
    ((l.filterMap (resolveTask env)).foldl SourceMap.Add (∅ : SourceMap)).lookup k =
      match s.lookup k with
      | none => none
      | some v => resolveTask env v := by
  rw [lookup_foldl_Add, AList.lookup_empty]
  have hsrc := writes_original env s hkey l hl k
  cases hsk : s.lookup k with
  | none =>
    apply lastWithOriginal_none
    intro n hn hnk
    obtain ⟨v, hv, _⟩ := hsrc n hn hnk
    rw [hsk] at hv
    exact Option.noConfusion hv
  | some v =>
    dsimp only
    cases hres : resolveTask env v with
    | none =>
      obtain ⟨e, he⟩ := (resolveTask_eq_none env v).mp hres
      apply lastWithOriginal_none
      intro n hn hnk
      obtain ⟨v2, hv2, hok⟩ := hsrc n hn hnk
      rw [hsk] at hv2
      rw [← Option.some.inj hv2, he] at hok
      exact Except.noConfusion hok
    | some n =>
      have hok := (resolveTask_eq_some env v n).mp hres
      apply lastWithOriginal_some
      · refine ⟨n, List.mem_filterMap.mpr ⟨v, ?_, hres⟩, ?_⟩
        · exact hl.mem_iff.mpr ((mem_values_original_iff s hkey k v).mpr hsk).1
        · rw [(UpdateFinalDestination_ok env v n hok).1]
          exact hkey k v hsk
      · intro x hx hxk
        obtain ⟨v2, hv2, hok2⟩ := hsrc x hx hxk
        rw [hsk] at hv2
        rw [← Option.some.inj hv2, hok] at hok2
        injection hok2 with hok2
        exact hok2.symm

/-- A value found by `lastWithOriginal` from nothing is an element with the original. -/
theorem lastWithOriginal_mem (k : String) (n : Source) (l : List Source) :
    ∀ init, lastWithOriginal k init l = some n →
      (n ∈ l ∧ n.original = k) ∨ init = some n := by
  induction l with
  | nil => intro init h; exact Or.inr h
  | cons x xs ih =>
    intro init h
    simp only [lastWithOriginal, List.foldl_cons] at h
    rcases ih _ h with ⟨hm, hk⟩ | hinit
    · exact Or.inl ⟨List.mem_cons_of_mem _ hm, hk⟩
    · by_cases hx : x.original = k
      · simp only [hx, if_true] at hinit
        have : x = n := Option.some.inj hinit
        subst this
        exact Or.inl ⟨List.mem_cons_self _ _, hx⟩
      · simp only [hx, if_false] at hinit
        exact Or.inr hinit

/-- Whatever part of the writes has landed, the staging map holds under a key only the
result for the entry of that key. -/
theorem staged_lookup_some (env : Env) (s : SourceMap)
    (hkey : ∀ k v, s.lookup k = some v → v.original = k)
    (l : List Source) (hl : l.Perm s.values) (landed : List Source)
    (hsub : ∀ n ∈ landed, n ∈ l.filterMap (resolveTask env)) (k : String) (n : Source)
    (h : (landed.foldl SourceMap.Add (∅ : SourceMap)).lookup k = some n) :
    ∃ v, s.lookup k = some v ∧ v.UpdateFinalDestination env = .ok n := by
  rw [lookup_foldl_Add, AList.lookup_empty] at h
  rcases lastWithOriginal_mem k n landed none h with ⟨hm, hk⟩ | hnone
  · exact writes_original env s hkey l hl k n (hsub n hm) hk
  · exact Option.noConfusion hnone

/-- The writes that land are among the writes of the tasks. -/
theorem stagedWrites_subset (race : StagingRace) (writes landed : List Source)
    (h : stagedWrites race writes = some landed) : ∀ n ∈ landed, n ∈ writes := by
  unfold stagedWrites at h
  split at h
  · injection h with h; subst h; exact fun n hn => hn
  · cases race with
    | apart => injection h with h; subst h; exact fun n hn => hn
    | fatal => exact Option.noConfusion h
    | lost i =>
      injection h with h
      subst h
      exact fun n hn => (List.eraseIdx_sublist writes i).subset hn

/-- The staging writes end the process only when the runtime notices two of them
overlapping. -/
theorem stagedWrites_eq_none (race : StagingRace) (writes : List Source) :
    stagedWrites race writes = none ↔ 2 ≤ writes.length ∧ race = .fatal := by
  unfold stagedWrites
  by_cases h : writes.length < 2
  · simp only [h, if_true]
    constructor
    · intro h2; exact Option.noConfusion h2
    · intro h2; omega
  · simp only [h, if_false]
    cases race with
    | apart => simp
    | fatal => simp; omega
    | lost i => simp

/-- Whenever `ResolveSources` returns, on a registry keyed by original: the key set is
kept, the registry stays keyed by original, and every entry either keeps its value or
becomes the Source the resolver returns for its own key. -/
theorem ResolveSources_returned (env : Env) (rt : Runtime) (s after : SourceMap)
    (hkey : ∀ k v, s.lookup k = some v → v.original = k)
    (h : s.ResolveSources env rt = some after) :
    (∀ k, k ∈ after ↔ k ∈ s) ∧
    (∀ k v, after.lookup k = some v → v.original = k) ∧
    (∀ k v, s.lookup k = some v →
      after.lookup k = some v ∨
        ∃ n, v.UpdateFinalDestination env = .ok n ∧ after.lookup k = some n) := by
  unfold SourceMap.ResolveSources at h
  simp only at h
  cases hst : stagedWrites (rt.staging ((rt.visit s.values).filterMap (resolveTask env)))
      ((rt.visit s.values).filterMap (resolveTask env)) with
  | none => rw [hst] at h; exact Option.noConfusion h
  | some landed =>
    rw [hst] at h
    simp only at h
    injection h with h
    have hsub := stagedWrites_subset _ _ _ hst
    have hkeyed : ∀ k v, (landed.foldl SourceMap.Add (∅ : SourceMap)).lookup k = some v →
        v.original = k := keyed_foldl_Add _ ∅ keyed_empty
    have hlook : ∀ k, after.lookup k =
        match (landed.foldl SourceMap.Add (∅ : SourceMap)).lookup k with
        | some n => some n
        | none => s.lookup k := by
      intro k
      rw [← h]
      exact lookup_foldl_Add_values _ s hkeyed _ (rt.visit_perm _) k
    have hstaged := staged_lookup_some env s hkey (rt.visit s.values) (rt.visit_perm _)
      landed hsub
    refine ⟨?_, ?_, ?_⟩
    · intro k
      rw [← AList.lookup_isSome, ← AList.lookup_isSome, hlook k]
      cases hk : (landed.foldl SourceMap.Add (∅ : SourceMap)).lookup k with
      | none => rfl
      | some n =>
        obtain ⟨v, hv, _⟩ := hstaged k n hk
        simp [hv]
    · rw [← h]
      exact keyed_foldl_Add _ s hkey
    · intro k v hv
      rw [hlook k]
      cases hk : (landed.foldl SourceMap.Add (∅ : SourceMap)).lookup k with
      | none => exact Or.inl hv
      | some n =>
        obtain ⟨v2, hv2, hok⟩ := hstaged k n hk
        rw [hv] at hv2
        rw [← Option.some.inj hv2] at hok
        exact Or.inr ⟨n, hok, rfl⟩

/-- `ResolveSources` returns unless the runtime stops the process. -/
theorem ResolveSources_isSome (env : Env) (rt : Runtime) (s : SourceMap)
    (hrt : ∀ writes, rt.staging writes ≠ .fatal) :
    ∃ after, s.ResolveSources env rt = some after := by
  unfold SourceMap.ResolveSources
  simp only
  cases hst : stagedWrites (rt.staging ((rt.visit s.values).filterMap (resolveTask env)))
      ((rt.visit s.values).filterMap (resolveTask env)) with
  | none => exact absurd ((stagedWrites_eq_none _ _).mp hst).2 (hrt _)
  | some landed => exact ⟨_, rfl⟩

/-- When the staging writes all land (fewer than two tasks succeed, or no two writes
overlap), on a registry keyed by original, `ResolveSources` returns; it keeps the key
set; an entry whose resolution fails keeps its value; an entry whose resolution
succeeds becomes the Source the resolver returns for its own key. -/
theorem ResolveSources_apart (env : Env) (rt : Runtime) (s : SourceMap)
    (hkey : ∀ k v, s.lookup k = some v → v.original = k)
    (hrace : ((rt.visit s.values).filterMap (resolveTask env)).length < 2 ∨
      rt.staging ((rt.visit s.values).filterMap (resolveTask env)) = .apart) :
    ∃ after, s.ResolveSources env rt = some after ∧
      (∀ k, k ∈ after ↔ k ∈ s) ∧
      (∀ k v, s.lookup k = some v →
        (∀ e, v.UpdateFinalDestination env = .error e → after.lookup k = some v) ∧
        (∀ n, v.UpdateFinalDestination env = .ok n →
          after.lookup k = some n ∧ n.original = k ∧
            (NewSource k).UpdateFinalDestination env = .ok n)) := by
  have hst : stagedWrites (rt.staging ((rt.visit s.values).filterMap (resolveTask env)))
      ((rt.visit s.values).filterMap (resolveTask env)) =
      some ((rt.visit s.values).filterMap (resolveTask env)) := by
    unfold stagedWrites
    rcases hrace with h | h
    · simp [h]
    · rw [h]; simp
  have hret : s.ResolveSources env rt = some
      ((rt.visit (((rt.visit s.values).filterMap (resolveTask env)).foldl SourceMap.Add
        (∅ : SourceMap)).values).foldl SourceMap.Add s) := by
    unfold SourceMap.ResolveSources
    simp only [hst]
  refine ⟨_, hret, (ResolveSources_returned env rt s _ hkey hret).1, ?_⟩
  intro k v hv
  have hkeyed : ∀ k v, (((rt.visit s.values).filterMap (resolveTask env)).foldl
      SourceMap.Add (∅ : SourceMap)).lookup k = some v → v.original = k :=
    keyed_foldl_Add _ ∅ keyed_empty
  have hlook := lookup_foldl_Add_values _ s hkeyed _ (rt.visit_perm _) k
  rw [staging_lookup env s hkey (rt.visit s.values) (rt.visit_perm _) k, hv] at hlook
  dsimp only at hlook
  refine ⟨?_, ?_⟩
  · intro e he
    have : resolveTask env v = none := (resolveTask_eq_none env v).mpr ⟨e, he⟩
    rw [this] at hlook
    exact hlook
  · intro n hn
    have : resolveTask env v = some n := (resolveTask_eq_some env v n).mpr hn
    rw [this] at hlook
    have ho := UpdateFinalDestination_ok env v n hn
    rw [hkey k v hv] at ho
    exact ⟨hlook, ho.1, ho.2⟩

/-- The serial case on a registry of two entries, walked backwards: `rtsp://h/s1`
resolves and is replaced, `rtsp://h/s2` times out and keeps its earlier value. -/
theorem ResolveSources_apart_witness :
    ∃ after, sampleRegistry.ResolveSources sampleEnv .backwards = some after ∧
      (∀ k, k ∈ after ↔ k ∈ sampleRegistry) ∧
      after.lookup "rtsp://h/s2" =
        some { original := "rtsp://h/s2", resolved := "rtsp://edge/s2" } ∧
      after.lookup "rtsp://h/s1" =
        some { original := "rtsp://h/s1", resolved := "rtsp://h/s1/final" } := by
  have hkey : ∀ k v, sampleRegistry.lookup k = some v → v.original = k :=
    keyed_foldl_Add
      [{ original := "rtsp://h/s2", resolved := "rtsp://edge/s2" },
       { original := "rtsp://h/s1", resolved := "" }] ∅ keyed_empty
  obtain ⟨after, hret, hmem, h⟩ :=
    ResolveSources_apart sampleEnv .backwards sampleRegistry hkey (Or.inr rfl)
  refine ⟨after, hret, hmem, ?_, ?_⟩
  · exact (h "rtsp://h/s2" { original := "rtsp://h/s2", resolved := "rtsp://edge/s2" }
      (by decide)).1 "request timed out" (by rfl)
  · exact ((h "rtsp://h/s1" { original := "rtsp://h/s1", resolved := "" }
      (by decide)).2
      { original := "rtsp://h/s1", resolved := "rtsp://h/s1/final" } (by rfl)).1

/-- C1 (what the code does): the registry holds `rtsp://h/s1` and `rtsp://h/s3`, keyed
by original, and both resolve. The two tasks write the staging map with no lock. When
the runtime notices the two writes overlapping the process stops and there is no
registry after the call; when they overlap unnoticed and the first write is lost, the
call returns with the entry of `rtsp://h/s1` still unresolved although its resolution
succeeded. Only when the writes stay apart are both entries replaced. -/
theorem ResolveSources_staging_race :
    (∀ k v, raceRegistry.lookup k = some v → v.original = k) ∧
    Source.UpdateFinalDestination sampleEnv { original := "rtsp://h/s1", resolved := "" } =
      .ok { original := "rtsp://h/s1", resolved := "rtsp://h/s1/final" } ∧
    Source.UpdateFinalDestination sampleEnv { original := "rtsp://h/s3", resolved := "" } =
      .ok { original := "rtsp://h/s3", resolved := "rtsp://h/s3/final" } ∧
    stagingExclusive (raceRegistry.ResolveSourcesOps sampleEnv .colliding).tasks = false ∧
    raceRegistry.ResolveSources sampleEnv .colliding = none ∧
    (raceRegistry.ResolveSources sampleEnv .losing).map
        (fun after => after.lookup "rtsp://h/s1") =
      some (some { original := "rtsp://h/s1", resolved := "" }) ∧
    (raceRegistry.ResolveSources sampleEnv .asStored).map
        (fun after => (after.lookup "rtsp://h/s1", after.lookup "rtsp://h/s3")) =
      some (some { original := "rtsp://h/s1", resolved := "rtsp://h/s1/final" },
        some { original := "rtsp://h/s3", resolved := "rtsp://h/s3/final" }) := by
  refine ⟨?_, by rfl, by rfl, by rfl, by rfl, by decide, by decide⟩
  exact keyed_foldl_Add
    [{ original := "rtsp://h/s3", resolved := "" },
     { original := "rtsp://h/s1", resolved := "" }] ∅ keyed_empty

/-! ## Snapshots -/

/-- In a map keyed by original the originals of the values are the keys. -/
theorem values_original_eq_keys (s : SourceMap)
    (hkey : ∀ k v, s.lookup k = some v → v.original = k) :
    s.values.map (fun v => v.original) = s.keys := by
  simp only [SourceMap.values, AList.keys, List.keys, List.map_map]
  apply List.map_congr_left
  intro e he
  exact hkey e.1 e.2 (AList.mem_lookup_iff.mpr he)

/-- The snapshot of two providers: the values of the first, then those of the second. -/
theorem extractSources_pair (rt : Runtime) (l₁ l₂ : SourcesList) :
    extractSources rt [l₁, l₂] =
      rt.visit l₁.registry.values ++ rt.visit l₂.registry.values := by
  simp only [extractSources, List.foldl_cons, List.foldl_nil, SourcesList.Iterate,
    SourceMap.Iterate]
  rw [foldl_append_singleton (fun v : Source => v), foldl_append_singleton (fun v : Source => v)]
  simp

/-- The originals of the snapshot of a provider keyed by original are its keys, up to
the order. -/
theorem visit_originals_perm (rt : Runtime) (s : SourceMap)
    (hkey : ∀ k v, s.lookup k = some v → v.original = k) :
    ((rt.visit s.values).map (fun v => v.original)).Perm s.keys := by
  rw [← values_original_eq_keys s hkey]
  exact (rt.visit_perm _).map _

/-- The originals a provider shows after a resolve that returns are the keys it had
before, up to the order. -/
theorem resolved_originals_perm (env : Env) (rt : Runtime) (l after : SourcesList)
    (hkey : ∀ k v, l.registry.lookup k = some v → v.original = k)
    (h : l.ResolveSources env rt = some after) :
    ((rt.visit after.registry.values).map (fun v => v.original)).Perm l.registry.keys := by
  unfold SourcesList.ResolveSources at h
  cases hm : l.registry.ResolveSources env rt with
  | none => rw [hm] at h; exact Option.noConfusion h
  | some m =>
    rw [hm] at h
    injection h with h
    have hreg : after.registry = m := by
      rw [← h]
      cases l <;> rfl
    rw [hreg]
    obtain ⟨hmem, hkeyed, _⟩ := ResolveSources_returned env rt l.registry m hkey hm
    refine (visit_originals_perm rt m hkeyed).trans ?_
    rw [List.perm_ext_iff_of_nodup (AList.keys_nodup _) (AList.keys_nodup _)]
    intro k
    rw [← AList.mem_keys, ← AList.mem_keys]
    exact hmem k

/-- The keys of the two providers of the end-to-end scenario after the refresh. -/
theorem scenario_refreshed (env : Env) (url body : String)
    (hget : env.httpGet url = .ok body)
    (hdec : env.jsonDecode body = .ok ["rtsp://h/s2", "rtsp://h/s3"]) :
    (∀ k v, ((SourcesList.arg (NewArgSourcesList
        [NewSource "rtsp://h/s1"])).RefreshSources env).registry.lookup k = some v →
      v.original = k) ∧
    ((SourcesList.arg (NewArgSourcesList
        [NewSource "rtsp://h/s1"])).RefreshSources env).registry.keys = ["rtsp://h/s1"] ∧
    (∀ k v, ((SourcesList.http (NewHttpSourcesList url)).RefreshSources
        env).registry.lookup k = some v → v.original = k) ∧
    ((SourcesList.http (NewHttpSourcesList url)).RefreshSources env).registry.keys =
      ["rtsp://h/s3", "rtsp://h/s2", ""] := by
  have hread := readSourcesFromJson_decoded env body _ hdec
  have hreg₂ : ((SourcesList.http (NewHttpSourcesList url)).RefreshSources env).registry =
      [({ original := "", resolved := "" } : Source), { original := "", resolved := "" },
        { original := "rtsp://h/s2", resolved := "" },
        { original := "rtsp://h/s3", resolved := "" }].foldl SourceMap.Add ∅ := by
    simp only [SourcesList.RefreshSources, HttpSourcesList.RefreshSources, NewHttpSourcesList,
      hget, hread]
    rfl
  have hreg₁ : ((SourcesList.arg (NewArgSourcesList
      [NewSource "rtsp://h/s1"])).RefreshSources env).registry =
      [NewSource "rtsp://h/s1"].foldl SourceMap.Add ∅ := rfl
  rw [hreg₁, hreg₂]
  refine ⟨keyed_foldl_Add _ ∅ keyed_empty, by decide, keyed_foldl_Add _ ∅ keyed_empty,
    by decide⟩

/-- C3 (what the code does): in the end-to-end scenario, with the two providers in
either order and whatever the resolver answers, every snapshot taken after one
`refreshAndResolve` has four entries: the three addresses and one more whose original
is the empty string, left by the structured-document decoder. The call returns unless
the runtime stops the process on two overlapping staging writes. -/
theorem refreshAndResolve_scenario_four_entries (env : Env) (rt : Runtime)
    (url body : String) (lists : List SourcesList)
    (hlists :
      lists = [.arg (NewArgSourcesList [NewSource "rtsp://h/s1"]),
        .http (NewHttpSourcesList url)] ∨
      lists = [.http (NewHttpSourcesList url),
        .arg (NewArgSourcesList [NewSource "rtsp://h/s1"])])
    (hget : env.httpGet url = .ok body)
    (hdec : env.jsonDecode body = .ok ["rtsp://h/s2", "rtsp://h/s3"]) :
    (∀ after, refreshAndResolve env rt lists = some after →
      ((extractSources rt after).map (fun source => source.original)).Perm
        ["rtsp://h/s1", "", "rtsp://h/s2", "rtsp://h/s3"] ∧
      (extractSources rt after).length = 4) ∧
    ((∀ writes, rt.staging writes ≠ .fatal) →
      ∃ after, refreshAndResolve env rt lists = some after) := by
  obtain ⟨hk₁, e₁, hk₂, e₂⟩ := scenario_refreshed env url body hget hdec
  refine ⟨?_, ?_⟩
  · intro after hafter
    have hperm : ((extractSources rt after).map (fun source => source.original)).Perm
        ["rtsp://h/s1", "", "rtsp://h/s2", "rtsp://h/s3"] := by
      rcases hlists with rfl | rfl
      · simp only [refreshAndResolve] at hafter
        cases h₁ : ((SourcesList.arg (NewArgSourcesList
            [NewSource "rtsp://h/s1"])).RefreshSources env).ResolveSources env rt with
        | none => rw [h₁] at hafter; exact Option.noConfusion hafter
        | some a₁ =>
          cases h₂ : ((SourcesList.http (NewHttpSourcesList url)).RefreshSources
              env).ResolveSources env rt with
          | none => rw [h₁, h₂] at hafter; exact Option.noConfusion hafter
          | some a₂ =>
            rw [h₁, h₂] at hafter
            injection hafter with hafter
            rw [← hafter, extractSources_pair, List.map_append]
            have p₁ := resolved_originals_perm env rt _ a₁ hk₁ h₁
            have p₂ := resolved_originals_perm env rt _ a₂ hk₂ h₂
            rw [e₁] at p₁
            rw [e₂] at p₂
            exact (List.Perm.append p₁ p₂).trans (by decide)
      · simp only [refreshAndResolve] at hafter
        cases h₂ : ((SourcesList.http (NewHttpSourcesList url)).RefreshSources
            env).ResolveSources env rt with
        | none => rw [h₂] at hafter; exact Option.noConfusion hafter
        | some a₂ =>
          cases h₁ : ((SourcesList.arg (NewArgSourcesList
              [NewSource "rtsp://h/s1"])).RefreshSources env).ResolveSources env rt with
          | none => rw [h₂, h₁] at hafter; exact Option.noConfusion hafter
          | some a₁ =>
            rw [h₂, h₁] at hafter
            injection hafter with hafter
            rw [← hafter, extractSources_pair, List.map_append]
            have p₁ := resolved_originals_perm env rt _ a₁ hk₁ h₁
            have p₂ := resolved_originals_perm env rt _ a₂ hk₂ h₂
            rw [e₁] at p₁
            rw [e₂] at p₂
            exact (List.Perm.append p₂ p₁).trans (by decide)
    exact ⟨hperm, by simpa using hperm.length_eq⟩
  · intro hrt
    have hsome : ∀ l : SourcesList, ∃ a, l.ResolveSources env rt = some a := by
      intro l
      obtain ⟨m, hm⟩ := ResolveSources_isSome env rt l.registry hrt
      exact ⟨l.withRegistry m, by simp [SourcesList.ResolveSources, hm]⟩
    rcases hlists with rfl | rfl
    · obtain ⟨a₁, h₁⟩ := hsome ((SourcesList.arg (NewArgSourcesList
        [NewSource "rtsp://h/s1"])).RefreshSources env)
      obtain ⟨a₂, h₂⟩ := hsome ((SourcesList.http (NewHttpSourcesList url)).RefreshSources
        env)
      exact ⟨[a₁, a₂], by simp [refreshAndResolve, h₁, h₂]⟩
    · obtain ⟨a₁, h₁⟩ := hsome ((SourcesList.arg (NewArgSourcesList
        [NewSource "rtsp://h/s1"])).RefreshSources env)
      obtain ⟨a₂, h₂⟩ := hsome ((SourcesList.http (NewHttpSourcesList url)).RefreshSources
        env)
      exact ⟨[a₂, a₁], by simp [refreshAndResolve, h₁, h₂]⟩

/-- C3 in the sample world, the maps walked backwards: the call returns and the
snapshot has four entries. -/
theorem refreshAndResolve_scenario_four_entries_witness :
    (∀ after, refreshAndResolve sampleEnv .backwards scenarioLists = some after →
      ((extractSources .backwards after).map (fun source => source.original)).Perm
        ["rtsp://h/s1", "", "rtsp://h/s2", "rtsp://h/s3"] ∧
      (extractSources .backwards after).length = 4) ∧
    ∃ after, refreshAndResolve sampleEnv .backwards scenarioLists = some after :=
  ⟨(refreshAndResolve_scenario_four_entries sampleEnv .backwards "http://lists/remote"
      "remote list" scenarioLists (Or.inl rfl) (by rfl) (by rfl)).1,
   (refreshAndResolve_scenario_four_entries sampleEnv .backwards "http://lists/remote"
      "remote list" scenarioLists (Or.inl rfl) (by rfl) (by rfl)).2
      (fun _ h => StagingRace.noConfusion h)⟩

/-! ## Refresh of a file or remote-endpoint provider -/

/-- The adds of a refresh act on the backing map. -/
theorem foldl_ConcurrentSourceMap_Add (srcs : List Source) :
    ∀ c : ConcurrentSourceMap,
      srcs.foldl ConcurrentSourceMap.Add c = ⟨srcs.foldl SourceMap.Add c.SourceMap⟩ := by
  induction srcs with
  | nil => intro c; rfl
  | cons x xs ih => intro c; simp only [List.foldl_cons]; rw [ih]; rfl

/-- Adding Sources with empty resolved values: a key among their originals reads the
fresh Source, any other key reads what it read before. -/
theorem lookup_foldl_Add_fresh (s : SourceMap) (srcs : List Source)
    (hfresh : ∀ x ∈ srcs, x.resolved = "") (k : String) :
    (srcs.foldl SourceMap.Add s).lookup k =
      if k ∈ srcs.map (fun x => x.original) then
        some ({ original := k, resolved := "" } : Source)
      else s.lookup k := by
  rw [lookup_foldl_Add]
  by_cases hk : k ∈ srcs.map (fun x => x.original)
  · rw [if_pos hk]
    obtain ⟨x, hx, hxk⟩ := List.mem_map.mp hk
    apply lastWithOriginal_some
    · exact ⟨x, hx, hxk⟩
    · intro y hy hyk
      have := hfresh y hy
      cases y
      simp only at hyk this
      rw [hyk, this]
  · rw [if_neg hk]
    apply lastWithOriginal_none
    intro x hx hxk
    exact hk (List.mem_map.mpr ⟨x, hx, hxk⟩)

/-- What a successful refresh of a file provider leaves at every key. On the tabular
path every first field reads a fresh Source and every other key is untouched; on the
structured-document path the same holds, except that the empty key is overwritten
whenever the input is not empty. -/
theorem FileSourcesList_RefreshSources_lookup (env : Env) (f : FileSourcesList)
    (file : String) (hopen : env.osOpen f.path = .ok file) (k : String) :
    (f.ext = Csv → ∀ rows, env.csvReadAll file = .ok rows →
      (f.RefreshSources env).ConcurrentSourceMap.SourceMap.lookup k =
        if k ∈ rows.map (fun row => row.1) then some { original := k, resolved := "" }
        else f.ConcurrentSourceMap.SourceMap.lookup k) ∧
    (f.ext = Json → ∀ values, env.jsonDecode file = .ok values →
      (f.RefreshSources env).ConcurrentSourceMap.SourceMap.lookup k =
        if k ∈ values then some { original := k, resolved := "" }
        else if k = "" ∧ values ≠ [] then some { original := "", resolved := "" }
        else f.ConcurrentSourceMap.SourceMap.lookup k) := by
  refine ⟨?_, ?_⟩
  · intro hext rows hrows
    have hne : ¬ (Csv = Json) := by decide
    have hread := readSourcesFromCsv_one_per_record env file rows hrows
    simp only [FileSourcesList.RefreshSources, hopen, hext, hne, if_false, if_true, hread,
      foldl_ConcurrentSourceMap_Add]
    rw [lookup_foldl_Add_fresh]
    · simp only [List.map_map]
      rfl
    · intro x hx
      obtain ⟨row, _, rfl⟩ := List.mem_map.mp hx
      rfl
  · intro hext values hvalues
    have hread := readSourcesFromJson_decoded env file values hvalues
    simp only [FileSourcesList.RefreshSources, hopen, hext, if_true, hread,
      foldl_ConcurrentSourceMap_Add]
    rw [lookup_foldl_Add_fresh]
    · have hmem : k ∈ (List.replicate values.length ({ original := "", resolved := "" } : Source)
          ++ values.map (fun value => ({ original := value, resolved := "" } : Source))).map
            (fun x => x.original) ↔ (k = "" ∧ values ≠ []) ∨ k ∈ values := by
        simp only [List.map_append, List.map_replicate, List.map_map, List.mem_append,
          List.mem_replicate, ne_eq, List.length_eq_zero]
        constructor
        · rintro (⟨h1, h2⟩ | h)
          · exact Or.inl ⟨h2, h1⟩
          · right; simpa using h
        · rintro (⟨h1, h2⟩ | h)
          · exact Or.inl ⟨h2, h1⟩
          · right; simpa using h
      by_cases hv : k ∈ values
      · rw [if_pos (hmem.mpr (Or.inr hv)), if_pos hv]
      · by_cases he : k = "" ∧ values ≠ []
        · rw [if_pos (hmem.mpr (Or.inl he)), if_neg hv, if_pos he, he.1]
        · rw [if_neg (fun h => (hmem.mp h).elim he hv), if_neg hv, if_neg he]
    · intro x hx
      rcases List.mem_append.mp hx with h | h
      · rw [(List.mem_replicate.mp h).2]
      · obtain ⟨v, _, rfl⟩ := List.mem_map.mp h
        rfl

/-- What a successful refresh of a remote-endpoint provider leaves at every key: every
decoded address reads a fresh Source, the empty key is overwritten whenever the input
is not empty, every other key is untouched. -/
theorem HttpSourcesList_RefreshSources_lookup (env : Env) (h : HttpSourcesList)
    (body : String) (hget : env.httpGet h.url = .ok body) (values : List String)
    (hvalues : env.jsonDecode body = .ok values) (k : String) :
    (h.RefreshSources env).ConcurrentSourceMap.SourceMap.lookup k =
      if k ∈ values then some { original := k, resolved := "" }
      else if k = "" ∧ values ≠ [] then some { original := "", resolved := "" }
      else h.ConcurrentSourceMap.SourceMap.lookup k := by
  have hf := (FileSourcesList_RefreshSources_lookup
    { env with osOpen := fun _ => .ok body }
    ⟨h.url, Json, h.ConcurrentSourceMap⟩ body rfl k).2 rfl values hvalues
  have hsame : (h.RefreshSources env).ConcurrentSourceMap =
      ((FileSourcesList.mk h.url Json h.ConcurrentSourceMap).RefreshSources
        { env with osOpen := fun _ => .ok body }).ConcurrentSourceMap := by
    have hr : readSourcesFromJson { env with osOpen := fun _ => .ok body } body =
        readSourcesFromJson env body := rfl
    simp only [HttpSourcesList.RefreshSources, FileSourcesList.RefreshSources, hget, hr,
      if_true]
    cases readSourcesFromJson env body <;> rfl
  rw [hsame]
  exact hf

/-- Without the premise on the empty key the frame property fails on the
structured-document path: a resolved entry under the empty key, were there one, would
lose its resolved value to the zero Source the decoder puts in front of its result. -/
theorem RefreshSources_json_overwrites_empty_key :
    readSourcesFromJson sampleEnv "json list" =
      .ok [{ original := "", resolved := "" },
           { original := "rtsp://h/s5", resolved := "" }] ∧
    "" ∉ ["rtsp://h/s5"] ∧
    emptyKeyRegistry.lookup "" = some { original := "", resolved := "rtsp://edge/root" } ∧
    ((FileSourcesList.mk "list.json" Json ⟨emptyKeyRegistry⟩).RefreshSources
      sampleEnv).ConcurrentSourceMap.SourceMap.lookup "" =
        some { original := "", resolved := "" } ∧
    ((FileSourcesList.mk "list.json" Json ⟨emptyKeyRegistry⟩).RefreshSources
      sampleEnv).ConcurrentSourceMap.SourceMap.lookup "rtsp://h/s5" =
        some { original := "rtsp://h/s5", resolved := "" } := by
  refine ⟨by rfl, by decide, by decide, by decide, by decide⟩

/-- C5: for a file or remote-endpoint provider whose input decodes to the address list
`L`, in every registry state in which the Source of the empty address, if present, is
unresolved (every state a provider goes through, see `Sound_ResolveSources`): after
`RefreshSources` every key of the registry is still in it, every prior entry whose key
is not in `L` is unchanged, and every address of `L` reads the Source with that
original and an empty resolved value. -/
theorem RefreshSources_decoded_frame (env : Env) (l : SourcesList) (L : List String)
    (hdecoded :
      (∃ h body, l = .http h ∧ env.httpGet h.url = .ok body ∧
        env.jsonDecode body = .ok L) ∨
      (∃ f file, l = .file f ∧ env.osOpen f.path = .ok file ∧ f.ext = Json ∧
        env.jsonDecode file = .ok L) ∨
      (∃ f file rows, l = .file f ∧ env.osOpen f.path = .ok file ∧ f.ext = Csv ∧
        env.csvReadAll file = .ok rows ∧ L = rows.map (fun row => row.1)))
    (hempty : ∀ v, l.registry.lookup "" = some v → v = { original := "", resolved := "" }) :
    (∀ k, k ∈ l.registry → k ∈ (l.RefreshSources env).registry) ∧
    (∀ k v, l.registry.lookup k = some v → k ∉ L →
      (l.RefreshSources env).registry.lookup k = some v) ∧
    (∀ a ∈ L, (l.RefreshSources env).registry.lookup a =
      some { original := a, resolved := "" }) := by
  have hform : ∀ k, ((l.RefreshSources env).registry.lookup k =
      if k ∈ L then some { original := k, resolved := "" }
      else if k = "" ∧ L ≠ [] then some { original := "", resolved := "" }
      else l.registry.lookup k) ∨
      ((l.RefreshSources env).registry.lookup k =
      if k ∈ L then some { original := k, resolved := "" }
      else l.registry.lookup k) := by
    intro k
    rcases hdecoded with ⟨h, body, rfl, hget, hdec⟩ | ⟨f, file, rfl, hopen, hext, hdec⟩ |
      ⟨f, file, rows, rfl, hopen, hext, hdec, rfl⟩
    · exact Or.inl (HttpSourcesList_RefreshSources_lookup env h body hget L hdec k)
    · exact Or.inl ((FileSourcesList_RefreshSources_lookup env f file hopen k).2 hext L hdec)
    · exact Or.inr ((FileSourcesList_RefreshSources_lookup env f file hopen k).1 hext rows
        hdec)
  have hkeep : ∀ k v, l.registry.lookup k = some v → k ∉ L →
      (l.RefreshSources env).registry.lookup k = some v := by
    intro k v hv hk
    rcases hform k with h | h
    · rw [h, if_neg hk]
      by_cases he : k = "" ∧ L ≠ []
      · rw [if_pos he]
        have := hempty v (by rw [← he.1]; exact hv)
        rw [this]
      · rw [if_neg he, hv]
    · rw [h, if_neg hk, hv]
  refine ⟨?_, hkeep, ?_⟩
  · intro k hk
    rw [← AList.lookup_isSome] at hk ⊢
    by_cases hL : k ∈ L
    · rcases hform k with h | h <;> rw [h, if_pos hL] <;> rfl
    · obtain ⟨v, hv⟩ := Option.isSome_iff_exists.mp hk
      rw [hkeep k v hv hL]
      rfl
  · intro a ha
    rcases hform a with h | h <;> rw [h, if_pos ha]

/-- C5 on a file provider with one resolved and one unresolved entry whose file decodes
to one new address. -/
theorem RefreshSources_decoded_frame_witness :
    (∀ k, k ∈ sampleRegistry →
      k ∈ ((SourcesList.file ⟨"list.json", Json, ⟨sampleRegistry⟩⟩).RefreshSources
        sampleEnv).registry) ∧
    (∀ k v, sampleRegistry.lookup k = some v → k ∉ ["rtsp://h/s5"] →
      ((SourcesList.file ⟨"list.json", Json, ⟨sampleRegistry⟩⟩).RefreshSources
        sampleEnv).registry.lookup k = some v) ∧
    (∀ a ∈ ["rtsp://h/s5"],
      ((SourcesList.file ⟨"list.json", Json, ⟨sampleRegistry⟩⟩).RefreshSources
        sampleEnv).registry.lookup a = some { original := a, resolved := "" }) :=
  RefreshSources_decoded_frame sampleEnv
    (.file ⟨"list.json", Json, ⟨sampleRegistry⟩⟩) ["rtsp://h/s5"]
    (Or.inr (Or.inl ⟨⟨"list.json", Json, ⟨sampleRegistry⟩⟩, "json list", rfl, by rfl,
      by rfl, by rfl⟩))
    (fun v h => by
      have hn : sampleRegistry.lookup "" = none := by decide
      have hr : (SourcesList.file ⟨"list.json", Json, ⟨sampleRegistry⟩⟩).registry =
          sampleRegistry := rfl
      rw [hr, hn] at h
      exact Option.noConfusion h)

/-! ## The registry states a provider goes through -/

/-- A sound registry holds the zero Source under the empty key, if anything. -/
theorem Sound_empty_key (s : SourceMap) (hs : s.Sound) :
    ∀ v, s.lookup "" = some v → v = { original := "", resolved := "" } := by
  intro v hv
  obtain ⟨h1, h2⟩ := hs "" v hv
  have h3 := h2 rfl
  cases v
  simp only at h1 h3
  rw [h1, h3]

/-- The empty registry is sound. -/
theorem Sound_empty : (∅ : SourceMap).Sound := by
  intro k v h
  simp [AList.lookup_empty] at h

/-- `Add` of a Source that is unresolved if its original is empty keeps a registry
sound. -/
theorem Sound_Add (s : SourceMap) (hs : s.Sound) (x : Source)
    (hx : x.original = "" → x.resolved = "") : (s.Add x).Sound := by
  intro k v h
  rw [lookup_Add] at h
  by_cases hk : x.original = k
  · simp only [hk, if_true] at h
    have : x = v := Option.some.inj h
    subst this
    exact ⟨hk, fun e => hx (by rw [hk, e])⟩
  · simp only [hk, if_false] at h
    exact hs k v h

/-- A run of such `Add`s keeps a registry sound. -/
theorem Sound_foldl_Add (l : List Source) (hl : ∀ x ∈ l, x.original = "" → x.resolved = "") :
    ∀ s : SourceMap, s.Sound → (l.foldl SourceMap.Add s).Sound := by
  induction l with
  | nil => intro s hs; exact hs
  | cons x xs ih =>
    intro s hs
    exact ih (fun y hy => hl y (List.mem_cons_of_mem _ hy)) (s.Add x)
      (Sound_Add s hs x (hl x (List.mem_cons_self _ _)))

/-- The registry of a provider made by `getSourceList` is sound. -/
theorem Sound_getSourceList (address : String) (l : SourcesList)
    (h : getSourceList address = some l) : l.registry.Sound := by
  unfold getSourceList at h
  split at h
  · injection h with h; subst h; exact Sound_empty
  · split at h
    · injection h with h; subst h; exact Sound_empty
    · split at h
      · injection h with h
        subst h
        exact Sound_foldl_Add [NewSource address] (fun x hx _ => by
          rw [List.mem_singleton.mp hx]; rfl) ∅ Sound_empty
      · split at h
        · injection h with h; subst h; exact Sound_empty
        · exact Option.noConfusion h

/-- The decoders return unresolved Sources only. -/
theorem decoded_unresolved (env : Env) (r : String) :
    (∀ srcs, readSourcesFromJson env r = .ok srcs → ∀ x ∈ srcs, x.resolved = "") ∧
    (∀ srcs, readSourcesFromCsv env r = .ok srcs → ∀ x ∈ srcs, x.resolved = "") := by
  refine ⟨?_, ?_⟩
  · intro srcs h x hx
    cases hd : env.jsonDecode r with
    | error e => simp [readSourcesFromJson, hd] at h
    | ok values =>
      rw [readSourcesFromJson_decoded env r values hd] at h
      injection h with h
      subst h
      rcases List.mem_append.mp hx with h | h
      · rw [(List.mem_replicate.mp h).2]
      · obtain ⟨v, _, rfl⟩ := List.mem_map.mp h
        rfl
  · intro srcs h x hx
    cases hd : env.csvReadAll r with
    | error e => simp [readSourcesFromCsv, hd] at h
    | ok rows =>
      rw [readSourcesFromCsv_one_per_record env r rows hd] at h
      injection h with h
      subst h
      obtain ⟨row, _, rfl⟩ := List.mem_map.mp hx
      rfl

/-- `RefreshSources` keeps the registry of a provider sound. -/
theorem Sound_RefreshSources (env : Env) (l : SourcesList) (hs : l.registry.Sound) :
    (l.RefreshSources env).registry.Sound := by
  cases l with
  | arg a => exact hs
  | http h =>
    show (h.RefreshSources env).ConcurrentSourceMap.SourceMap.Sound
    cases hg : env.httpGet h.url with
    | error e =>
      simp only [HttpSourcesList.RefreshSources, hg]
      exact hs
    | ok body =>
      cases hr : readSourcesFromJson env body with
      | error e =>
        simp only [HttpSourcesList.RefreshSources, hg, hr]
        exact hs
      | ok srcs =>
        simp only [HttpSourcesList.RefreshSources, hg, hr, foldl_ConcurrentSourceMap_Add]
        exact Sound_foldl_Add srcs
          (fun x hx _ => (decoded_unresolved env body).1 srcs hr x hx) _ hs
  | file f =>
    show (f.RefreshSources env).ConcurrentSourceMap.SourceMap.Sound
    cases ho : env.osOpen f.path with
    | error e =>
      simp only [FileSourcesList.RefreshSources, ho]
      exact hs
    | ok file =>
      by_cases hj : f.ext = Json
      · cases hr : readSourcesFromJson env file with
        | error e =>
          simp only [FileSourcesList.RefreshSources, ho, hj, if_true, hr]
          exact hs
        | ok srcs =>
          simp only [FileSourcesList.RefreshSources, ho, hj, if_true, hr,
            foldl_ConcurrentSourceMap_Add]
          exact Sound_foldl_Add srcs
            (fun x hx _ => (decoded_unresolved env file).1 srcs hr x hx) _ hs
      · by_cases hc : f.ext = Csv
        · cases hr : readSourcesFromCsv env file with
          | error e =>
            simp only [FileSourcesList.RefreshSources, ho, hj, if_false, hc, if_true, hr]
            exact hs
          | ok srcs =>
            simp only [FileSourcesList.RefreshSources, ho, hj, if_false, hc, if_true, hr,
              foldl_ConcurrentSourceMap_Add]
            exact Sound_foldl_Add srcs
              (fun x hx _ => (decoded_unresolved env file).2 srcs hr x hx) _ hs
        · simp only [FileSourcesList.RefreshSources, ho, hj, if_false, hc,
            List.foldl_nil]
          exact hs

/-- `ResolveSources` keeps a registry sound, whatever the other addresses resolve to
and however the staging writes end, when `url.Parse` rejects the empty address. -/
theorem Sound_ResolveSources (env : Env) (rt : Runtime) (s after : SourceMap)
    (hparse : ∃ e, env.urlParse "" = .error e) (hs : s.Sound)
    (h : s.ResolveSources env rt = some after) : after.Sound := by
  have hkey : ∀ k v, s.lookup k = some v → v.original = k := fun k v hv => (hs k v hv).1
  obtain ⟨hmem, hkeyed, hentry⟩ := ResolveSources_returned env rt s after hkey h
  intro k v hv
  refine ⟨hkeyed k v hv, ?_⟩
  intro hk
  subst hk
  have hin : "" ∈ s := (hmem "").mp (AList.lookup_isSome.mp (by rw [hv]; rfl))
  obtain ⟨w, hw⟩ := Option.isSome_iff_exists.mp (AList.lookup_isSome.mpr hin)
  rcases hentry "" w hw with h1 | ⟨n, hn, _⟩
  · rw [hv] at h1
    rw [Option.some.inj h1]
    exact (hs "" w hw).2 rfl
  · obtain ⟨e, he⟩ := hparse
    have hw0 : w.original = "" := hkey "" w hw
    unfold Source.UpdateFinalDestination at hn
    rw [hw0, he] at hn
    exact Except.noConfusion hn

/-! ## Structured-document output -/

/-- The accepted ranges of the second byte. -/
theorem accept_bounds (b0 : Nat) :
    128 ≤ acceptLo b0 ∧ acceptHi b0 ≤ 191 ∧ (b0 = 224 → acceptLo b0 = 160) ∧
      (b0 = 240 → acceptLo b0 = 144) ∧ (b0 = 237 → acceptHi b0 = 159) ∧
      (b0 = 244 → acceptHi b0 = 143) := by
  unfold acceptLo acceptHi
  refine ⟨?_, ?_, ?_, ?_, ?_, ?_⟩
  · split <;> [omega; (split <;> omega)]
  · split <;> [omega; (split <;> omega)]
  · intro h; simp [h]
  · intro h; simp [h]
  · intro h; simp [h]
  · intro h; simp [h]

/-- A rune read at the start of a byte sequence encodes to the bytes it was read from. -/
theorem runeAt_encode (bs : List Nat) (r n : Nat) (h : runeAt bs = some (r, n)) :
    EncodeRune r = bs.take n ∧ 1 ≤ n ∧ n ≤ bs.length := by
  unfold runeAt at h
  split at h
  · exact absurd h (by simp)
  · rename_i b0 rest
    split at h
    · injection h with h; injection h with h1 h2
      subst h1; subst h2
      rename_i hb
      simp [EncodeRune, hb]
    · split at h
      · split at h
        · rename_i b1 tl
          split at h
          · injection h with h; injection h with h1 h2
            subst h1; subst h2
            rename_i hb0 hb hb1
            have e1 : ¬ ((b0 - 192) * 64 + (b1 - 128) < 128) := by omega
            have e2 : (b0 - 192) * 64 + (b1 - 128) < 2048 := by omega
            have e3 : 192 + ((b0 - 192) * 64 + (b1 - 128)) / 64 = b0 := by omega
            have e4 : 128 + ((b0 - 192) * 64 + (b1 - 128)) % 64 = b1 := by omega
            simp [EncodeRune, e1, e2, e3, e4]
          · exact absurd h (by simp)
        · exact absurd h (by simp)
      · split at h
        · split at h
          · rename_i b1 b2 tl
            split at h
            · injection h with h; injection h with h1 h2
              subst h1; subst h2
              rename_i hb0 hb2 hb hc
              obtain ⟨c1, c2, c3, c4⟩ := hc
              obtain ⟨a1, a2, a3, a4, a5, a6⟩ := accept_bounds b0
              have d1a : 128 ≤ b1 := by omega
              have d2a : b1 ≤ 191 := by omega
              have d1b : b0 = 224 → 160 ≤ b1 := by intro hh; have := a3 hh; omega
              have d2b : b0 = 237 → b1 ≤ 159 := by intro hh; have := a5 hh; omega
              have e1 : ¬ ((b0 - 224) * 4096 + (b1 - 128) * 64 + (b2 - 128) < 128) := by omega
              have e2 : ¬ ((b0 - 224) * 4096 + (b1 - 128) * 64 + (b2 - 128) < 2048) := by omega
              have e3 : ¬ (1114111 < (b0 - 224) * 4096 + (b1 - 128) * 64 + (b2 - 128) ∨
                  (55296 ≤ (b0 - 224) * 4096 + (b1 - 128) * 64 + (b2 - 128) ∧
                    (b0 - 224) * 4096 + (b1 - 128) * 64 + (b2 - 128) ≤ 57343)) := by omega
              have e4 : (b0 - 224) * 4096 + (b1 - 128) * 64 + (b2 - 128) < 65536 := by omega
              have e5 : 224 + ((b0 - 224) * 4096 + (b1 - 128) * 64 + (b2 - 128)) / 4096 = b0 := by
                omega
              have e6 : 128 + ((b0 - 224) * 4096 + (b1 - 128) * 64 + (b2 - 128)) / 64 % 64 = b1 := by
                omega
              have e7 : 128 + ((b0 - 224) * 4096 + (b1 - 128) * 64 + (b2 - 128)) % 64 = b2 := by
                omega
              simp only [EncodeRune, e1, e2, e3, e4, e5, e6, e7, if_true, if_false]
              simp
            · exact absurd h (by simp)
          · exact absurd h (by simp)
        · split at h
          · split at h
            · rename_i b1 b2 b3 tl
              split at h
              · injection h with h; injection h with h1 h2
                subst h1; subst h2
                rename_i hb0 hb2 hb3 hb hc
                obtain ⟨c1, c2, c3, c4, c5, c6⟩ := hc
                obtain ⟨a1, a2, a3, a4, a5, a6⟩ := accept_bounds b0
                have d1a : 128 ≤ b1 := by omega
                have d2a : b1 ≤ 191 := by omega
                have d1b : b0 = 240 → 144 ≤ b1 := by intro hh; have := a4 hh; omega
                have d2b : b0 = 244 → b1 ≤ 143 := by intro hh; have := a6 hh; omega
                have e1 : ¬ ((b0 - 240) * 262144 + (b1 - 128) * 4096 + (b2 - 128) * 64 +
                    (b3 - 128) < 128) := by omega
                have e2 : ¬ ((b0 - 240) * 262144 + (b1 - 128) * 4096 + (b2 - 128) * 64 +
                    (b3 - 128) < 2048) := by omega
                have e3 : ¬ (1114111 < (b0 - 240) * 262144 + (b1 - 128) * 4096 +
                    (b2 - 128) * 64 + (b3 - 128) ∨
                    (55296 ≤ (b0 - 240) * 262144 + (b1 - 128) * 4096 + (b2 - 128) * 64 +
                      (b3 - 128) ∧
                      (b0 - 240) * 262144 + (b1 - 128) * 4096 + (b2 - 128) * 64 + (b3 - 128)
                        ≤ 57343)) := by omega
                have e4 : ¬ ((b0 - 240) * 262144 + (b1 - 128) * 4096 + (b2 - 128) * 64 +
                    (b3 - 128) < 65536) := by omega
                have e5 : 240 + ((b0 - 240) * 262144 + (b1 - 128) * 4096 + (b2 - 128) * 64 +
                    (b3 - 128)) / 262144 = b0 := by omega
                have e6 : 128 + ((b0 - 240) * 262144 + (b1 - 128) * 4096 + (b2 - 128) * 64 +
                    (b3 - 128)) / 4096 % 64 = b1 := by omega
                have e7 : 128 + ((b0 - 240) * 262144 + (b1 - 128) * 4096 + (b2 - 128) * 64 +
                    (b3 - 128)) / 64 % 64 = b2 := by omega
                have e8 : 128 + ((b0 - 240) * 262144 + (b1 - 128) * 4096 + (b2 - 128) * 64 +
                    (b3 - 128)) % 64 = b3 := by omega
                simp only [EncodeRune, e1, e2, e3, e4, e5, e6, e7, e8, if_true, if_false]
                simp
              · exact absurd h (by simp)
            · exact absurd h (by simp)
          · exact absurd h (by simp)

/-- On valid UTF-8 the text the encoder writes encodes back to the same bytes. -/
theorem encode_coerce (fuel : Nat) : ∀ bs : List Nat, bs.length ≤ fuel →
    validLoop fuel bs = true → encodeUTF8 (coerceLoop fuel bs) = bs := by
  induction fuel with
  | zero =>
    intro bs hlen _
    have : bs = [] := List.length_eq_zero.mp (by omega)
    subst this
    rfl
  | succ fuel ih =>
    intro bs hlen hv
    cases bs with
    | nil => rfl
    | cons b bs =>
      simp only [validLoop] at hv
      simp only [coerceLoop]
      cases hr : runeAt (b :: bs) with
      | none => rw [hr] at hv; exact absurd hv (by simp)
      | some p =>
        obtain ⟨r, size⟩ := p
        rw [hr] at hv
        simp only at hv ⊢
        obtain ⟨he, h1, h2⟩ := runeAt_encode (b :: bs) r size hr
        have hl : ((b :: bs).drop size).length ≤ fuel := by
          rw [List.length_drop]
          simp only [List.length_cons] at hlen h2 ⊢
          omega
        have := ih _ hl hv
        simp only [encodeUTF8, List.flatMap_cons] at this ⊢
        rw [this, he, List.take_append_drop]

/-- The bytes of a Go string make the string. -/
theorem goString_goBytes (s : String) : goString (goBytes s) = s := by
  have h : ∀ l : List Char, (l.map Char.toNat).map Char.ofNat = l := by
    intro l
    induction l with
    | nil => rfl
    | cons c cs ih => simp [ih, Char.ofNat_toNat]
  simp only [goString, goBytes, h]
  cases s
  rfl

/-- A string of valid UTF-8 is read back as written. -/
theorem valid_round_trip (s : String) (h : ValidString s = true) :
    goString (encodeUTF8 (toValidUTF8 (goBytes s))) = s := by
  unfold ValidString at h
  unfold toValidUTF8
  rw [encode_coerce _ _ (le_refl _) h, goString_goBytes]

/-- Keys of the map built by `WriterPrinter.Print`. -/
theorem mem_foldl_insert (list : List Source) (k : String) :
    ∀ acc : StringMap,
      k ∈ list.foldl (fun sources source =>
        AList.insert source.original source.resolved sources) acc ↔
        k ∈ acc ∨ k ∈ list.map (fun source => source.original) := by
  induction list with
  | nil => intro acc; simp
  | cons a rest ih =>
    intro acc
    simp only [List.foldl_cons, List.map_cons, List.mem_cons]
    rw [ih, AList.mem_insert]
    tauto

/-- A key that no later element writes keeps its value. -/
theorem lookup_foldl_insert_of_not_mem (list : List Source) (k : String)
    (hk : k ∉ list.map (fun source => source.original)) :
    ∀ acc : StringMap,
      (list.foldl (fun sources source =>
        AList.insert source.original source.resolved sources) acc).lookup k =
        acc.lookup k := by
  induction list with
  | nil => intro acc; rfl
  | cons a rest ih =>
    intro acc
    simp only [List.map_cons, List.mem_cons, not_or] at hk
    simp only [List.foldl_cons]
    rw [ih hk.2, AList.lookup_insert_ne hk.1]

/-- With distinct originals every element is read back under its original. -/
theorem lookup_foldl_insert_of_mem (list : List Source)
    (hnodup : (list.map (fun source => source.original)).Nodup) (s : Source)
    (hs : s ∈ list) :
    ∀ acc : StringMap,
      (list.foldl (fun sources source =>
        AList.insert source.original source.resolved sources) acc).lookup s.original =
        some s.resolved := by
  induction list with
  | nil => exact absurd hs (List.not_mem_nil _)
  | cons a rest ih =>
    intro acc
    simp only [List.map_cons, List.nodup_cons] at hnodup
    simp only [List.foldl_cons]
    rcases List.mem_cons.mp hs with h | h
    · subst h
      rw [lookup_foldl_insert_of_not_mem rest s.original hnodup.1, AList.lookup_insert]
    · exact ih hnodup.2 h _

/-- Every binding of the map built by `WriterPrinter.Print` comes from an element. -/
theorem lookup_foldl_insert_some (list : List Source) (k v : String) :
    ∀ acc : StringMap,
      (list.foldl (fun sources source =>
        AList.insert source.original source.resolved sources) acc).lookup k = some v →
        (∃ s ∈ list, s.original = k ∧ s.resolved = v) ∨ acc.lookup k = some v := by
  induction list with
  | nil => intro acc h; exact Or.inr h
  | cons a rest ih =>
    intro acc h
    simp only [List.foldl_cons] at h
    rcases ih _ h with ⟨s, hs, h1, h2⟩ | hacc
    · exact Or.inl ⟨s, List.mem_cons_of_mem _ hs, h1, h2⟩
    · by_cases hk : k = a.original
      · subst hk
        rw [AList.lookup_insert] at hacc
        exact Or.inl ⟨a, List.mem_cons_self _ _, rfl, Option.some.inj hacc⟩
      · rw [AList.lookup_insert_ne hk] at hacc
        exact Or.inr hacc

/-- Two step functions that agree on the elements of a list fold it alike. -/
theorem foldl_congr_mem {α β : Type} (f g : β → α → β) (l : List α)
    (h : ∀ x ∈ l, ∀ acc, f acc x = g acc x) : ∀ init, l.foldl f init = l.foldl g init := by
  induction l with
  | nil => intro init; rfl
  | cons x xs ih =>
    intro init
    simp only [List.foldl_cons]
    rw [h x (List.mem_cons_self _ _) init]
    exact ih (fun y hy => h y (List.mem_cons_of_mem _ hy)) _

/-- Decoding the document of a map whose keys and values are valid UTF-8 assigns the
bindings of the map, in the order of the sorted keys. -/
theorem jsonDecodeMap_jsonEncodeMap (m : StringMap)
    (hvalid : ∀ k v, m.lookup k = some v → ValidString k = true ∧ ValidString v = true) :
    ∃ srcs : List Source,
      (srcs.map (fun s => (⟨s.original, s.resolved⟩ : Sigma fun _ : String => String))).Perm
        m.entries ∧
      jsonDecodeMap (jsonEncodeMap m) = WriterPrinter.sources srcs := by
  refine ⟨((m.entries.map (fun e => (e.1, e.2))).insertionSort
      (fun a b => bytesLe (goBytes a.1) (goBytes b.1) = true)).map
        (fun member => { original := member.1, resolved := member.2 }), ?_, ?_⟩
  · rw [List.map_map]
    have hp := (List.perm_insertionSort
      (fun a b : String × String => bytesLe (goBytes a.1) (goBytes b.1) = true)
      (m.entries.map (fun e => (e.1, e.2)))).map
        (fun member : String × String =>
          (⟨member.1, member.2⟩ : Sigma fun _ : String => String))
    refine hp.trans ?_
    rw [List.map_map]
    have : (m.entries.map ((fun member : String × String =>
        (⟨member.1, member.2⟩ : Sigma fun _ : String => String)) ∘
          (fun e => (e.1, e.2)))) = m.entries := by
      conv_rhs => rw [← List.map_id m.entries]
      apply List.map_congr_left
      intro e _
      rfl
    rw [this]
  · unfold jsonDecodeMap jsonEncodeMap WriterPrinter.sources
    rw [List.foldl_map, List.foldl_map]
    apply foldl_congr_mem
    intro member hmem acc
    have hin : member ∈ m.entries.map (fun e => (e.1, e.2)) :=
      (List.perm_insertionSort _ _).mem_iff.mp hmem
    obtain ⟨e, he, rfl⟩ := List.mem_map.mp hin
    have hl : m.lookup e.1 = some e.2 := AList.mem_lookup_iff.mpr he
    obtain ⟨h1, h2⟩ := hvalid e.1 e.2 hl
    simp only
    rw [valid_round_trip e.1 h1, valid_round_trip e.2 h2]

/-- C7 (amended): for every snapshot whose originals are pairwise distinct and whose
originals and resolved values are valid UTF-8, `WriterPrinter.Print` writes one
document, and decoding it gives a mapping whose keys are exactly the originals and
which maps every original to the resolved value of its Source, empty ones included. -/
theorem WriterPrinter_Print_round_trip (list : List Source)
    (hnodup : (list.map (fun source => source.original)).Nodup)
    (hvalid : ∀ s ∈ list, ValidString s.original = true ∧ ValidString s.resolved = true) :
    ∃ doc, WriterPrinter.Print list [] = [doc] ∧
      (∀ k, k ∈ jsonDecodeMap doc ↔ k ∈ list.map (fun source => source.original)) ∧
      (∀ s ∈ list, (jsonDecodeMap doc).lookup s.original = some s.resolved) := by
  have hm : ∀ k v, (WriterPrinter.sources list).lookup k = some v →
      ValidString k = true ∧ ValidString v = true := by
    intro k v h
    rcases lookup_foldl_insert_some list k v ∅ h with ⟨s, hs, rfl, rfl⟩ | h0
    · exact hvalid s hs
    · simp [AList.lookup_empty] at h0
  obtain ⟨srcs, hperm, hdec⟩ := jsonDecodeMap_jsonEncodeMap (WriterPrinter.sources list) hm
  have hkeys : (srcs.map (fun s => s.original)).Perm (WriterPrinter.sources list).keys := by
    have := hperm.map (fun e : Sigma fun _ : String => String => e.1)
    rw [List.map_map] at this
    exact this
  have hsn : (srcs.map (fun s => s.original)).Nodup :=
    hkeys.nodup_iff.mpr (AList.keys_nodup _)
  refine ⟨jsonEncodeMap (WriterPrinter.sources list), by simp [WriterPrinter.Print], ?_, ?_⟩
  · intro k
    have h1 : k ∈ jsonDecodeMap (jsonEncodeMap (WriterPrinter.sources list)) ↔
        k ∈ srcs.map (fun s => s.original) := by
      rw [hdec]
      unfold WriterPrinter.sources
      rw [mem_foldl_insert]
      simp [AList.not_mem_empty]
    have h2 : k ∈ WriterPrinter.sources list ↔
        k ∈ list.map (fun source => source.original) := by
      unfold WriterPrinter.sources
      rw [mem_foldl_insert]
      simp [AList.not_mem_empty]
    rw [h1, hkeys.mem_iff, ← AList.mem_keys, h2]
  · intro s hs
    rw [hdec]
    have hl : (WriterPrinter.sources list).lookup s.original = some s.resolved :=
      lookup_foldl_insert_of_mem list hnodup s hs ∅
    have hmem : (⟨s.original, s.resolved⟩ : Sigma fun _ : String => String) ∈
        (WriterPrinter.sources list).entries := AList.mem_lookup_iff.mp hl
    obtain ⟨s2, hs2, he⟩ := List.mem_map.mp (hperm.mem_iff.mpr hmem)
    simp only [Sigma.mk.inj_iff, heq_eq_eq] at he
    have := lookup_foldl_insert_of_mem srcs hsn s2 hs2 ∅
    rw [he.1, he.2] at this
    exact this

/-- C7 (amended) on the snapshot of the specification. -/
theorem WriterPrinter_Print_round_trip_witness :
    ∃ doc, WriterPrinter.Print roundTripSnapshot [] = [doc] ∧
      (∀ k, k ∈ jsonDecodeMap doc ↔
        k ∈ roundTripSnapshot.map (fun source => source.original)) ∧
      (∀ s ∈ roundTripSnapshot, (jsonDecodeMap doc).lookup s.original = some s.resolved) :=
  WriterPrinter_Print_round_trip roundTripSnapshot (by decide) (by decide)

/-- C7 (as stated) fails: the two originals of the snapshot are distinct, each ends in
a byte that is not valid UTF-8; the encoder writes U+FFFD for either byte, so the
document has two members of the same name and decoding it gives a mapping with one
key, which is neither original. -/
theorem WriterPrinter_Print_invalid_utf8 :
    (invalidSnapshot.map (fun source => source.original)).Nodup ∧
    (WriterPrinter.Print invalidSnapshot []).map (fun doc => (jsonDecodeMap doc).keys) =
      [["rtsp://h/\xef\xbf\xbd"]] ∧
    (WriterPrinter.Print invalidSnapshot []).map
        (fun doc => (jsonDecodeMap doc).lookup "rtsp://h/\xff") = [none] ∧
    (WriterPrinter.Print invalidSnapshot []).map
        (fun doc => (jsonDecodeMap doc).lookup "rtsp://h/\xef\xbf\xbd") =
      [some "rtsp://e/1"] := by
  refine ⟨by decide, by decide, by decide, by decide⟩

/-! ## Locking -/

/-- C6 (what the code does): of the provider methods only `Add` touches the backing map
between `Lock` and `Unlock`; `Get`, `Iterate` and `ResolveSources` read it without the
lock, for every registry; and on a registry of three entries of which two resolve, the
merge of `ResolveSources` writes the backing map without the lock and two tasks write
the staging map with no lock between them. -/
theorem registry_lock_discipline (env : Env) (rt : Runtime) (s : SourceMap) :
    lockedThroughout false (providerOps env rt s .Add) = true ∧
    lockedThroughout false (providerOps env rt s .Get) = false ∧
    lockedThroughout false (providerOps env rt s .Iterate) = false ∧
    lockedThroughout false (providerOps env rt s .ResolveSources) = false ∧
    (sampleRegistry.Add { original := "rtsp://h/s3", resolved := "" }).ResolveSourcesOps
        sampleEnv .asStored =
      { range := [.mapRead],
        tasks := [[.stagingWrite], [.stagingWrite], []],
        merge := [.mapWrite, .mapWrite] } ∧
    lockedThroughout false ((sampleRegistry.Add
      { original := "rtsp://h/s3", resolved := "" }).ResolveSourcesOps
        sampleEnv .asStored).merge = false ∧
    stagingExclusive ((sampleRegistry.Add
      { original := "rtsp://h/s3", resolved := "" }).ResolveSourcesOps
        sampleEnv .asStored).tasks = false := by
  refine ⟨by rfl, by rfl, by rfl, ?_, by rfl, by rfl, by rfl⟩
  simp [providerOps, SourceMap.ResolveSourcesOps, lockedThroughout]

end RtspRedirectResolver
